import Mathlib

/-!
Verification of profiling.go: log parser, CSV row store and chart responder.

A shallow embedding of `src/profiling.go` (package `main`).

Go strings are modelled as lists of characters (`Str`), which covers every
valid UTF-8 text.  The functions of the repository (`generateData`, `readData`,
`decodeRow`, `dataHandler`, `tableJSON`) are translated statement by statement.  The standard
library routines they call are modelled next to them:

* `strings.Split`, `strings.TrimSpace`, `strings.Fields`, `strings.Join`;
* `time.Parse` for the two layouts the program uses and `Time.Format` for
  `15:04:05`;
* `encoding/csv`: `Writer.WriteAll` and `Reader.Read` with the default settings;
* `net/http`: `http.Error`, and the status and body a handler leaves;
* `strconv.ParseFloat` and `json.Encoder.Encode` are parameters: nothing proved
  here depends on the binary value of a `float64` or on the bytes of the JSON
  text.

The definitions come first, the theorems after them.
-/

namespace Profiling

/-- A Go string, as the list of its characters. -/
abbrev Str := List Char

/-! ## package strings -/

/-- Go `unicode.IsSpace`: the white space characters of Unicode. -/
def isSpace (c : Char) : Bool :=
  c = '\t' || c = '\n' || c = '\x0b' || c = '\x0c' || c = '\r' || c = ' ' ||
  c.toNat = 0x85 || c.toNat = 0xA0 || c.toNat = 0x1680 ||
  (0x2000 ≤ c.toNat && c.toNat ≤ 0x200A) ||
  c.toNat = 0x2028 || c.toNat = 0x2029 || c.toNat = 0x202F ||
  c.toNat = 0x205F || c.toNat = 0x3000

/-- Go `strings.TrimSpace`: drop leading and trailing white space. -/
def trimSpace (s : Str) : Str :=
  ((s.dropWhile isSpace).reverse.dropWhile isSpace).reverse

/-- Loop of `strings.Fields`: `cur` is the token being read. -/
def fieldsAux : Str → Str → List Str
  | cur, [] => if cur = [] then [] else [cur]
  | cur, c :: cs =>
    if isSpace c then
      (if cur = [] then fieldsAux [] cs else cur :: fieldsAux [] cs)
    else fieldsAux (cur ++ [c]) cs

/-- Go `strings.Fields`: the maximal runs of non-space characters. -/
def fields (s : Str) : List Str := fieldsAux [] s

/-- Go `strings.Join`. -/
def join : List Str → Str → Str
  | [], _ => []
  | [a], _ => a
  | a :: b :: rest, sep => a ++ sep ++ join (b :: rest) sep

/-- Loop of `strings.Split` for a non-empty separator: `cur` is the piece being
read and `skip` counts the characters of a matched separator still to pass. -/
def splitAux (sep : Str) : Str → Nat → Str → List Str
  | cur, _, [] => [cur]
  | cur, skip + 1, _ :: cs => splitAux sep cur skip cs
  | cur, 0, c :: cs =>
    if sep.isPrefixOf (c :: cs) then cur :: splitAux sep [] (sep.length - 1) cs
    else splitAux sep (cur ++ [c]) 0 cs

/-- Go `strings.Split(s, sep)` for a non-empty `sep`: the pieces between the
leftmost non-overlapping occurrences of `sep`. -/
def split (s sep : Str) : List Str := splitAux sep [] 0 s

/-! ## package time -/

/-- The location of a `time.Time`: `time.UTC`, `time.Local`, or a zone made by
`time.FixedZone`. -/
inductive Loc where
  | utc
  | localZone
  | fixed (name : Str) (offset : Int)
  deriving DecidableEq, Repr

/-- A `time.Time`: an instant, in seconds since 0000-01-01 00:00:00 UTC of the
proleptic Gregorian calendar plus nanoseconds, and the location it is shown in. -/
structure Time where
  sec : Int
  nsec : Nat
  loc : Loc
  deriving DecidableEq, Repr

/-- What the program sees of `time.Local`, the zone data of the machine:
`lookupName name sec` is the offset of the zone abbreviated `name` (if the
local zone data has one) and `lookup sec` is the offset in force at `sec`. -/
structure LocalZone where
  lookupName : Str → Int → Option Int
  lookup : Int → Int

/-- A machine whose local zone data holds no named zone and no offset. -/
def utcLocal : LocalZone := ⟨fun _ _ => none, fun _ => 0⟩

def isDigit (c : Char) : Bool := '0'.toNat ≤ c.toNat && c.toNat ≤ '9'.toNat

def digitVal (c : Char) : Nat := c.toNat - '0'.toNat

/-- Go `time.getnum`: one or two digits, exactly two when `fixed`. -/
def getnum (fixed : Bool) : Str → Option (Nat × Str)
  | [] => none
  | [c] => if isDigit c && !fixed then some (digitVal c, []) else none
  | c :: d :: rest =>
    if isDigit c then
      if isDigit d then some (digitVal c * 10 + digitVal d, rest)
      else if fixed then none
      else some (digitVal c, d :: rest)
    else none

/-- Go `time.cutspace`. -/
def cutspace (s : Str) : Str := s.dropWhile (fun c => c = ' ')

/-- Go `time.skip` for a layout prefix that is one space: the value is at its end
or has a space here, and every space is passed. -/
def skipSpace : Str → Option Str
  | [] => some []
  | c :: rest => if c = ' ' then some (cutspace rest) else none

/-- Go `time.skip` for a one-character layout prefix other than a space. -/
def skipLit (p : Char) : Str → Option Str
  | [] => none
  | c :: rest => if c = p then some rest else none

/-- Value of a run of decimal digits. -/
def digitsVal (ds : Str) : Nat := ds.foldl (fun x c => x * 10 + digitVal c) 0

/-- Go `time.parseNanoseconds` applied to the fraction found after the seconds:
`value` starts after the comma or period; at most nine digits count. -/
def parseNanoseconds (value : Str) : Nat × Str :=
  let ds := (value.takeWhile isDigit).take 9
  (digitsVal ds * 10 ^ (9 - ds.length), value.dropWhile isDigit)

/-- The fractional second that `time.Parse` accepts after the seconds even
though the layout has none: a period or comma followed by a digit starts it.
Returns the nanoseconds and the rest of the value. -/
def fraction : Str → Nat × Str
  | p :: d :: rest =>
    if (p = '.' || p = ',') && isDigit d then parseNanoseconds (d :: rest)
    else (0, p :: d :: rest)
  | v => (0, v)

/-- The layout elements `15:04:05` of `time.Parse`: hour (one or two digits,
below 24), minute and second (two digits, below 60) and the fractional second.
Returns hour, minute, second, nanoseconds and the rest of the value. -/
def parseClock (value : Str) : Option (Nat × Nat × Nat × Nat × Str) :=
  (getnum false value).bind fun hv =>
  if 24 ≤ hv.1 then none else
  (skipLit ':' hv.2).bind fun v =>
  (getnum true v).bind fun mv =>
  if 60 ≤ mv.1 then none else
  (skipLit ':' mv.2).bind fun v =>
  (getnum true v).bind fun sv =>
  if 60 ≤ sv.1 then none else
  some (hv.1, mv.1, sv.1, (fraction sv.2).1, (fraction sv.2).2)

def isLeap (year : Nat) : Bool :=
  year % 4 = 0 && (year % 100 ≠ 0 || year % 400 = 0)

/-- Go `time.daysIn`. -/
def daysIn (month year : Nat) : Nat :=
  if month = 2 then (if isLeap year then 29 else 28)
  else if month = 4 || month = 6 || month = 9 || month = 11 then 30
  else 31

/-- Days from 0000-01-01 to the first day of `month` of `year`. -/
def daysBefore (year month : Nat) : Nat :=
  365 * year + (year + 3) / 4 - (year + 99) / 100 + (year + 399) / 400 +
  ((List.range (month - 1)).map (fun m => daysIn (m + 1) year)).sum

/-- Go `time.Date(year, month, day, hour, min, sec, nsec, time.UTC)` for
arguments in range. -/
def dateUTC (year month day hour min sec nsec : Nat) : Time :=
  ⟨((daysBefore year month + (day - 1) : Nat) : Int) * 86400 +
    (hour * 3600 + min * 60 + sec : Nat), nsec, Loc.utc⟩

/-- The zero `time.Time`: 0001-01-01 00:00:00 UTC. -/
def Time.zero : Time := dateUTC 1 1 1 0 0 0 0

/-- The `dateOutFmt` constant, `15:04:05`. -/
def dateOutFmt : Str := "15:04:05".toList

/-- Go `time.Parse(dateOutFmt, value)`: the value holds the clock elements and
nothing else; the date is 1 January of year 0, in UTC. -/
def parseTimeOfDay (value : Str) : Option Time :=
  (parseClock value).bind fun c =>
  if c.2.2.2.2 ≠ [] then none
  else some (dateUTC 0 1 1 c.1 c.2.1 c.2.2.1 c.2.2.2.1)

/-- Offset from UTC, in seconds, of the location of a time. -/
def Time.offset (env : LocalZone) (t : Time) : Int :=
  match t.loc with
  | Loc.utc => 0
  | Loc.localZone => env.lookup t.sec
  | Loc.fixed _ off => off

/-- Second of the day of a time, in its location (Go `Time.Clock`). -/
def Time.secOfDay (env : LocalZone) (t : Time) : Nat :=
  ((t.sec + t.offset env) % 86400).toNat

def digitChar (n : Nat) : Char := Char.ofNat ('0'.toNat + n % 10)

/-- Two decimal digits, zero padded (Go `appendInt(b, n, 2)` for `n < 100`). -/
def pad2 (n : Nat) : Str := [digitChar (n / 10), digitChar n]

/-- Go `t.Format(dateOutFmt)`: the clock of `t` as `HH:MM:SS`. -/
def formatTimeOfDay (env : LocalZone) (t : Time) : Str :=
  let s := t.secOfDay env
  pad2 (s / 3600) ++ [':'] ++ pad2 (s % 3600 / 60) ++ [':'] ++ pad2 (s % 60)

/-- Go `time.match`: equality of two strings of the same length, ignoring the
case of ASCII letters. -/
def matchFold : Str → Str → Bool
  | c1 :: s1, c2 :: s2 =>
    (c1 = c2 ||
      ((c1.toNat ||| 0x20) = (c2.toNat ||| 0x20) &&
        'a'.toNat ≤ (c1.toNat ||| 0x20) && (c1.toNat ||| 0x20) ≤ 'z'.toNat)) &&
    matchFold s1 s2
  | _, _ => true

def shortMonthNames : List Str :=
  ["Jan".toList, "Feb".toList, "Mar".toList, "Apr".toList, "May".toList, "Jun".toList,
   "Jul".toList, "Aug".toList, "Sep".toList, "Oct".toList, "Nov".toList, "Dec".toList]

/-- Go `time.lookup`: index of the first name of `tab` that `val` starts with,
ignoring case, and the rest of `val`. -/
def lookup : List Str → Str → Option (Nat × Str)
  | [], _ => none
  | v :: tab, val =>
    if v.length ≤ val.length && matchFold (val.take v.length) v then
      some (0, val.drop v.length)
    else (lookup tab val).map (fun r => (r.1 + 1, r.2))

/-- The layout element `2006` of `time.Parse`: exactly four digits. -/
def parseLongYear : Str → Option (Nat × Str)
  | a :: b :: c :: d :: rest =>
    if isDigit a && isDigit b && isDigit c && isDigit d then
      some (digitsVal [a, b, c, d], rest)
    else none
  | _ => none

/-- Go `time.leadingInt`: the leading run of digits and its value, failing when
the value overflows 63 bits. -/
def leadingInt (s : Str) : Option (Nat × Str) :=
  ((s.takeWhile isDigit).foldl
    (fun acc c => acc.bind (fun x =>
      if x > 2 ^ 63 / 10 then none
      else if x * 10 + digitVal c > 2 ^ 63 then none
      else some (x * 10 + digitVal c)))
    (some 0)).map (fun x => (x, s.dropWhile isDigit))

/-- Go `time.parseSignedOffset`: length of a sign followed by an hour number of
at most 23, or 0. -/
def parseSignedOffset : Str → Nat
  | [] => 0
  | sign :: rest =>
    if sign ≠ '-' && sign ≠ '+' then 0
    else
      match leadingInt rest with
      | none => 0
      | some (x, rem) =>
        if rem.length = rest.length then 0
        else if x > 23 then 0
        else (sign :: rest).length - rem.length

/-- Go `time.parseGMT`: length of `GMT` with its optional hour offset. -/
def parseGMT (value : Str) : Nat :=
  match value.drop 3 with
  | [] => 3
  | rest => 3 + parseSignedOffset rest

def isUpper (c : Char) : Bool := 'A'.toNat ≤ c.toNat && c.toNat ≤ 'Z'.toNat

/-- Go `time.parseTimeZone`: length of the time zone abbreviation that `value`
starts with, if it starts with one. -/
def parseTimeZone (value : Str) : Option Nat :=
  if value.length < 3 then none
  else if value.take 4 = "ChST".toList || value.take 4 = "MeST".toList then some 4
  else if value.take 3 = "GMT".toList then some (parseGMT value)
  else if value.head? = some '+' || value.head? = some '-' then
    (if parseSignedOffset value > 0 then some (parseSignedOffset value) else none)
  else
    match ((value.take 6).takeWhile isUpper).length with
    | 5 => if value.get? 4 = some 'T' then some 5 else none
    | 4 => if value.get? 3 = some 'T' || value.take 4 = "WITA".toList then some 4 else none
    | 3 => some 3
    | _ => none

/-- Go `time.atoi` on the hour offset of a `GMT` zone name: an optional sign and
digits. -/
def atoiSigned : Str → Int
  | '-' :: ds => - (digitsVal ds : Int)
  | '+' :: ds => (digitsVal ds : Int)
  | ds => (digitsVal ds : Int)

/-- The end of `time.Parse` for a value with a zone abbreviation other than
`UTC`: the clock is first read as UTC; when the local zone data knows the
abbreviation the instant is moved by its offset and shown in `time.Local`,
otherwise the instant stays and is shown in a made-up zone whose offset is zero,
or the stated number of hours for `GMT+h`. -/
def withZoneName (env : LocalZone) (t : Time) (zoneName : Str) : Time :=
  match env.lookupName zoneName t.sec with
  | some offset => ⟨t.sec - offset, t.nsec, Loc.localZone⟩
  | none =>
    let offset : Int :=
      if zoneName.length > 3 && zoneName.take 3 = "GMT".toList then
        atoiSigned (zoneName.drop 3) * 3600
      else 0
    ⟨t.sec, t.nsec, Loc.fixed zoneName offset⟩

/-- The layout of a block header, `02 Jan. 2006 15:04:05 MST`. -/
def headerLayout : Str := "02 Jan. 2006 15:04:05 MST".toList

/-- The layout element `MST` of `time.Parse` at the end of the layout, and the
end of `Parse`: the value is `UTC`, or a zone abbreviation, and nothing else;
the day is checked against the month; the time is made from the fields, given
as year, month, day, hour, minute, second, nanoseconds. -/
def parseZone (env : LocalZone) (year month day hour min sec nsec : Nat) (v : Str) :
    Option Time :=
  if v.take 3 = "UTC".toList then
    if v.drop 3 ≠ [] then none
    else if day < 1 || day > daysIn month year then none
    else some (dateUTC year month day hour min sec nsec)
  else
    (parseTimeZone v).bind fun n =>
    if v.drop n ≠ [] then none
    else if day < 1 || day > daysIn month year then none
    else some (withZoneName env (dateUTC year month day hour min sec nsec) (v.take n))

/-- Go `time.Parse(headerLayout, value)`: two-digit day, month abbreviation,
a period, four-digit year, the clock, and a zone abbreviation, separated by
spaces. -/
def parseHeader (env : LocalZone) (value : Str) : Option Time :=
  (getnum true value).bind fun dv =>
  (skipSpace dv.2).bind fun v =>
  (lookup shortMonthNames v).bind fun mv =>
  (skipLit '.' mv.2).bind fun v =>
  (skipSpace v).bind fun v =>
  (parseLongYear v).bind fun yv =>
  (skipSpace yv.2).bind fun v =>
  (parseClock v).bind fun c =>
  (skipSpace c.2.2.2.2).bind fun v =>
  parseZone env yv.1 (mv.1 + 1) dv.1 c.1 c.2.1 c.2.2.1 c.2.2.2.1 v

/-! ## package encoding/csv -/

/-- Go `csv.Writer.fieldNeedsQuotes` with the comma as separator. -/
def fieldNeedsQuotes (field : Str) : Bool :=
  if field = [] then false
  else if field = ['\\', '.'] then true
  else if field.any (fun c => c = '\n' || c = '\r' || c = '"' || c = ',') then true
  else
    match field with
    | r1 :: _ => isSpace r1
    | [] => false

/-- The inside of a quoted field as `csv.Writer.Write` writes it: every quote
is doubled, every other character is copied (`UseCRLF` is off). -/
def writeQuoted : Str → Str
  | [] => []
  | c :: cs => if c = '"' then '"' :: '"' :: writeQuoted cs else c :: writeQuoted cs

/-- One field as `csv.Writer.Write` writes it. -/
def writeField (field : Str) : Str :=
  if fieldNeedsQuotes field then ['"'] ++ writeQuoted field ++ ['"'] else field

/-- Go `csv.Writer.Write`: the fields separated by commas, then a line feed. -/
def writeRecord (record : List Str) : Str :=
  join (record.map writeField) [','] ++ ['\n']

/-- Go `csv.Writer.WriteAll`: every record in turn. -/
def writeAll : List (List Str) → Str
  | [] => []
  | record :: records => writeRecord record ++ writeAll records

/-- The sentinel errors of `csv.ParseError`. -/
inductive CsvError where
  | bareQuote
  | quote
  | fieldCount
  deriving DecidableEq, Repr

/-- The line normalisation of `csv.Reader.readLine`: a carriage return right
before a line feed is dropped, and so is one that ends the input. -/
def normalize : Str → Str
  | [] => []
  | c :: cs =>
    if c = '\r' then
      match cs with
      | [] => []
      | d :: _ => if d = '\n' then normalize cs else c :: normalize cs
    else c :: normalize cs

/-- Where `csv.Reader.readRecord` stands in its input. -/
inductive Mode where
  /-- before a record: empty lines are passed -/
  | recordStart
  /-- after a comma -/
  | fieldStart
  /-- in a field that did not start with a quote -/
  | unquoted
  /-- in a quoted field -/
  | quoted
  /-- in a quoted field, right after a quote -/
  | quoteSeen
  deriving DecidableEq, Repr

/-- The record parser of `csv.Reader.readRecord`, run over the normalised
input: `done` holds the fields of the record read so far, `cur` the field being
read.  The result lists what the successive calls return before the end of the
input, up to the first error.  A line is everything up to a line feed; a field
that does not start with a quote runs to the next comma or the end of its line
and may hold no quote (`ErrBareQuote`); a quoted field runs to its closing
quote, over line ends, a doubled quote standing for one quote, and must be
followed by a comma or the end of the line (`ErrQuote`). -/
def scan : Mode → List Str → Str → Str → List (Except CsvError (List Str))
  | Mode.recordStart, _, _, [] => []
  | Mode.recordStart, _, _, c :: cs =>
    if c = '\n' then scan Mode.recordStart [] [] cs
    else if c = '"' then scan Mode.quoted [] [] cs
    else if c = ',' then scan Mode.fieldStart [[]] [] cs
    else scan Mode.unquoted [] [c] cs
  | Mode.fieldStart, done, _, [] => [Except.ok (done ++ [[]])]
  | Mode.fieldStart, done, _, c :: cs =>
    if c = '\n' then Except.ok (done ++ [[]]) :: scan Mode.recordStart [] [] cs
    else if c = '"' then scan Mode.quoted done [] cs
    else if c = ',' then scan Mode.fieldStart (done ++ [[]]) [] cs
    else scan Mode.unquoted done [c] cs
  | Mode.unquoted, done, cur, [] => [Except.ok (done ++ [cur])]
  | Mode.unquoted, done, cur, c :: cs =>
    if c = '\n' then Except.ok (done ++ [cur]) :: scan Mode.recordStart [] [] cs
    else if c = '"' then [Except.error CsvError.bareQuote]
    else if c = ',' then scan Mode.fieldStart (done ++ [cur]) [] cs
    else scan Mode.unquoted done (cur ++ [c]) cs
  | Mode.quoted, _, _, [] => [Except.error CsvError.quote]
  | Mode.quoted, done, cur, c :: cs =>
    if c = '"' then scan Mode.quoteSeen done cur cs
    else scan Mode.quoted done (cur ++ [c]) cs
  | Mode.quoteSeen, done, cur, [] => [Except.ok (done ++ [cur])]
  | Mode.quoteSeen, done, cur, c :: cs =>
    if c = '"' then scan Mode.quoted done (cur ++ ['"']) cs
    else if c = ',' then scan Mode.fieldStart (done ++ [cur]) [] cs
    else if c = '\n' then Except.ok (done ++ [cur]) :: scan Mode.recordStart [] [] cs
    else [Except.error CsvError.quote]

/-- The records `csv.Reader.readRecord` parses from an input, before its check
of the number of fields. -/
def parseRecords (input : Str) : List (Except CsvError (List Str)) :=
  scan Mode.recordStart [] [] (normalize input)

/-- The check of `FieldsPerRecord` at the end of `csv.Reader.readRecord`: when
positive, a record with another number of fields is the error `ErrFieldCount`;
when zero it is set to the number of fields of the first record; when negative
nothing is checked.  The list stops at the first error. -/
def checkFieldCount : Int → List (Except CsvError (List Str)) →
    List (Except CsvError (List Str))
  | _, [] => []
  | _, Except.error e :: _ => [Except.error e]
  | fieldsPerRecord, Except.ok record :: more =>
    if fieldsPerRecord > 0 then
      if (record.length : Int) ≠ fieldsPerRecord then [Except.error CsvError.fieldCount]
      else Except.ok record :: checkFieldCount fieldsPerRecord more
    else if fieldsPerRecord = 0 then
      Except.ok record :: checkFieldCount record.length more
    else Except.ok record :: checkFieldCount fieldsPerRecord more

/-- A `csv.Reader` over `input`, as the list of what its successive `Read`
calls return before `io.EOF`, up to the first error. -/
def csvReads (fieldsPerRecord : Int) (input : Str) : List (Except CsvError (List Str)) :=
  checkFieldCount fieldsPerRecord (parseRecords input)

/-- Go `csv.NewReader`: `FieldsPerRecord` is 0. -/
def newReader (input : Str) : List (Except CsvError (List Str)) := csvReads 0 input

/-! ## profiling.go -/

/-- The error values the program meets. -/
inductive Error where
  /-- the package variable `errRecNotGood` -/
  | errRecNotGood
  /-- a `*time.ParseError` of `time.Parse(layout, value)` -/
  | timeParse (layout value : Str)
  /-- a `*strconv.NumError` of `strconv.ParseFloat(value, 64)` -/
  | numError (value : Str)
  /-- a `*csv.ParseError` -/
  | csvParse (e : CsvError)
  /-- the value `io.EOF` -/
  | eof
  /-- a `*fs.PathError` of `os.ReadFile`, `os.Open` or `os.Create` -/
  | pathError (op path : Str)
  deriving DecidableEq, Repr

/-- What the program uses of `float64`: its zero value and
`strconv.ParseFloat(s, 64)`, which is `some v` when the returned error is nil. -/
structure FloatOps (F : Type) where
  zero : F
  parseFloat : Str → Option F

variable {F : Type}

/-- The struct `Row`. -/
structure Row (F : Type) where
  Date : Time
  CpuPct : F
  Mem : F
  Process : Str
  deriving DecidableEq, Repr

/-- The struct `Table`: four columns. -/
structure Table (F : Type) where
  Date : List Time
  CpuPct : List F
  Mem : List F
  Process : List Str
  deriving DecidableEq, Repr

/-- The zero value `Row{}`. -/
def Row.zero (fl : FloatOps F) : Row F := ⟨Time.zero, fl.zero, fl.zero, []⟩

/-- The zero value of `Table` (`var table Table`). -/
def Table.empty : Table F := ⟨[], [], [], []⟩

/-- The four `append` statements at the end of the loop body of `readData`. -/
def Table.append (table : Table F) (row : Row F) : Table F :=
  ⟨table.Date ++ [row.Date], table.CpuPct ++ [row.CpuPct],
   table.Mem ++ [row.Mem], table.Process ++ [row.Process]⟩

def profileFileName : Str := "profile.csv".toList

/-- The function `decodeRow`. -/
def decodeRow (fl : FloatOps F) (rec : List Str) : Row F × Option Error :=
  if rec.length < 4 then (Row.zero fl, some Error.errRecNotGood)
  else
    match parseTimeOfDay (rec.getD 0 []) with
    | none => (Row.zero fl, some (Error.timeParse dateOutFmt (rec.getD 0 [])))
    | some date =>
      match fl.parseFloat (rec.getD 1 []) with
      | none => (Row.zero fl, some (Error.numError (rec.getD 1 [])))
      | some cpu =>
        match fl.parseFloat (rec.getD 2 []) with
        | none => (Row.zero fl, some (Error.numError (rec.getD 2 [])))
        | some mem => (⟨date, cpu, mem, rec.getD 3 []⟩, none)

/-- Go `csvReader.Read()` on a reader given as the list of its coming results:
the record, the error, and the reader after the call.  At the end of the input
the error is `io.EOF`. -/
def read : List (Except CsvError (List Str)) →
    List Str × Option Error × List (Except CsvError (List Str))
  | [] => ([], some Error.eof, [])
  | Except.ok record :: more => (record, none, more)
  | Except.error e :: more => ([], some (Error.csvParse e), more)

/-- The body of the `for` loop of `readData` after the test for `io.EOF`: the
record is decoded; on an error the loop continues with the table as it is,
otherwise the Row is appended to the four columns. -/
def loopBody (fl : FloatOps F) (table : Table F) (rec : List Str) : Table F :=
  match decodeRow fl rec with
  | (_, some _) => table
  | (row, none) => table.append row

/-- The `for` loop of `readData`, entered with the current `rec` and `err`,
`reader` being the results `csvReader.Read()` is still to return.  The loop runs
while `err == nil`; the body first tests `errors.Is(err, io.EOF)`; the post
statement `rec, err = csvReader.Read()` takes the next result of the reader,
which is an error when the reader is at an error or at the end of the input.
After the loop `readData` returns `table, nil`. -/
def readLoop (fl : FloatOps F) :
    Table F → List Str → Option Error → List (Except CsvError (List Str)) →
    Table F × Option Error
  | table, rec, err, Except.ok record :: more =>
    if err ≠ none then (table, none)
    else if err = some Error.eof then (table, none)
    else readLoop fl (loopBody fl table rec) record none more
  | table, rec, err, _ =>
    if err ≠ none then (table, none)
    else if err = some Error.eof then (table, none)
    else (loopBody fl table rec, none)

/-- The function `readData`; `profile` is the content of the file
`profileFileName`, or `none` when `os.Open` fails. -/
def readData (fl : FloatOps F) (profile : Option Str) : Table F × Option Error :=
  match profile with
  | none => (Table.empty, some (Error.pathError "open".toList profileFileName))
  | some content =>
    match read (newReader content) with
    | (_, some err, _) => (Table.empty, some err)
    | (_, none, csvReader) => readLoop fl Table.empty [] none csvReader

/-- The files the program works on: the content of `./ps.log` when it can be
read, the content of `profile.csv` when it exists, and whether `os.Create` of
the latter succeeds. -/
structure Files where
  psLog : Option Str
  profile : Option Str
  creatable : Bool
  deriving DecidableEq, Repr

def delimiter : Str := "%CPU %MEM ARGS mer.".toList

/-- The first element of `lines` in `generateData`. -/
def profileHeader : List Str := ["time".toList, "cpu".toList, "mem".toList, "proc".toList]

/-- The inner loop of `generateData`, over the lines `t[1:]` of a block whose
header time is written `date`. -/
def sampleLoop (date : Str) : List (List Str) → List Str → List (List Str)
  | lines, [] => lines
  | lines, o :: more =>
    let a := fields (trimSpace o)
    if a.length < 3 then sampleLoop date lines more
    else
      sampleLoop date
        (lines ++ [[date, a.getD 0 [], a.getD 1 [], join (a.drop 2) [' ']]]) more

/-- The outer loop of `generateData`, over the blocks. -/
def blockLoop (env : LocalZone) : List (List Str) → List Str → Except Error (List (List Str))
  | lines, [] => Except.ok lines
  | lines, s :: more =>
    if s = [] then blockLoop env lines more
    else
      let t := split s ['\n']
      let dateStr := trimSpace (t.headD [])
      match parseHeader env dateStr with
      | none => Except.error (Error.timeParse headerLayout dateStr)
      | some date => blockLoop env (sampleLoop (formatTimeOfDay env date) lines t.tail) more

/-- The parsing part of `generateData`: the value of `lines` when the loops are
done, or the error returned from inside them. -/
def parseLog (env : LocalZone) (rawProfile : Str) : Except Error (List (List Str)) :=
  blockLoop env [profileHeader] (split rawProfile delimiter)

/-- The function `generateData`: the returned error and the files afterwards.
Writing to the created file is taken to succeed. -/
def generateData (env : LocalZone) (files : Files) : Option Error × Files :=
  match files.psLog with
  | none => (some (Error.pathError "open".toList "./ps.log".toList), files)
  | some rawProfile =>
    match parseLog env rawProfile with
    | Except.error err => (some err, files)
    | Except.ok lines =>
      if files.creatable then (none, { files with profile := some (writeAll lines) })
      else (some (Error.pathError "open".toList profileFileName), files)

/-- A Go value handed to `encoding/json`: numbers, strings, times, slices and
maps with string keys. -/
inductive Value (F : Type) where
  | int (n : Int)
  | float (x : F)
  | str (s : Str)
  | time (t : Time)
  | slice (items : List (Value F))
  | map (members : List (Str × Value F))

/-- The member of a map value under a key. -/
def Value.member (key : Str) : Value F → Option (Value F)
  | Value.map members => (members.find? (fun kv => kv.1 = key)).map (fun kv => kv.2)
  | _ => none

/-- The value at the end of a path of keys. -/
def Value.path : List Str → Value F → Option (Value F)
  | [], v => some v
  | key :: keys, v => (v.member key).bind (Value.path keys)

/-- The map `reply` that `tableJSON` builds. -/
def reply (min max : Time) (table : Table F) : Value F :=
  Value.map [
    ("data".toList, Value.slice [
      Value.map [
        ("x".toList, Value.slice (table.Date.map Value.time)),
        ("y".toList, Value.slice (table.CpuPct.map Value.float)),
        ("name".toList, Value.str "cpu".toList),
        ("mode".toList, Value.str "line".toList),
        ("type".toList, Value.str "scatter".toList)]]),
    ("layout".toList, Value.map [
      ("title".toList, Value.str "Cpu Usage over time".toList),
      ("xaxis".toList, Value.map [
        ("type".toList, Value.str "date".toList),
        ("title".toList, Value.str "heure".toList),
        ("range".toList, Value.slice [Value.time min, Value.time max])]),
      ("yaxis".toList, Value.map [
        ("type".toList, Value.str "linear".toList),
        ("title".toList, Value.str "cpu usage %".toList),
        ("color".toList, Value.str "blue".toList),
        ("range".toList, Value.slice [Value.int 0, Value.int 500])])])]

/-- The function `tableJSON`.  `encode v` stands for
`json.NewEncoder(w).Encode(v)`: the error it returns and the bytes it writes to
`w`.  The result is the returned error and the bytes written. -/
def tableJSON (encode : Value F → Option Error × Str) (table : Table F) :
    Option Error × Str :=
  match parseTimeOfDay "10:58:26".toList with
  | none => (some (Error.timeParse dateOutFmt "10:58:26".toList), [])
  | some min =>
    match parseTimeOfDay "18:14:58".toList with
    | none => (some (Error.timeParse dateOutFmt "18:14:58".toList), [])
    | some max => encode (reply min max table)

/-- A sample `float64`: plain decimal literals `digits` or `digits.digits`, kept
as the pair of the digits read as one number and the count of decimals.
`strconv.ParseFloat` accepts every such literal. -/
def decimalFloat : FloatOps (Nat × Nat) where
  zero := (0, 0)
  parseFloat := fun s =>
    let ip := s.takeWhile isDigit
    match s.dropWhile isDigit with
    | [] => if ip = [] then none else some (digitsVal ip, 0)
    | c :: fp =>
      if c = '.' && ip ≠ [] && fp ≠ [] && fp.all isDigit then
        some (digitsVal (ip ++ fp), fp.length)
      else none

/-- The log text of the worked example. -/
def exampleLog : Str :=
  ("01 Jan. 2024 10:00:00 UTC\n5.0 2.0 myproc\n%CPU %MEM ARGS mer." ++
   "02 Jan. 2024 11:00:00 UTC\n3.0 1.0 other proc\n").toList

/-! ## Notions used to state the properties -/

/-- The Row that `decodeRow` returns with a nil error, if it does. -/
def decodeOk (fl : FloatOps F) (rec : List Str) : Option (Row F) :=
  match decodeRow fl rec with
  | (row, none) => some row
  | (_, some _) => none

/-- The Rows of the records that `decodeRow` accepts, in order. -/
def decodedRows (fl : FloatOps F) (records : List (List Str)) : List (Row F) :=
  records.filterMap (decodeOk fl)

/-- The Table whose columns hold the fields of the given Rows, in order. -/
def Table.ofRows (rows : List (Row F)) : Table F :=
  ⟨rows.map (fun r => r.Date), rows.map (fun r => r.CpuPct),
   rows.map (fun r => r.Mem), rows.map (fun r => r.Process)⟩

/-- The records a reader returns before its first error. -/
def okPrefix : List (Except CsvError (List Str)) → List (List Str)
  | [] => []
  | Except.error _ :: _ => []
  | Except.ok record :: more => record :: okPrefix more

/-- A stored file whose header has three fields and whose one data line has
four. -/
def shortHeaderFile : Str := "a,b,c\n10:00:00,1,2,p\n".toList

/-- A stored file with the usual header, a line of three fields and then a line
that decodes to a Row. -/
def shortLineFile : Str := "time,cpu,mem,proc\na,b,c\n10:00:00,1,2,p\n".toList

/-- A stored file whose second data line has a cpu field that is no number. -/
def badCpuFile : Str :=
  "time,cpu,mem,proc\n10:00:00,1,2,a\n10:00:01,x,2,b\n10:00:02,3,4,c\n".toList

/-- The header of a block as `generateData` parses it: the first line, trimmed. -/
def headerOf (s : Str) : Str := trimSpace ((split s ['\n']).headD [])

/-- The row of a sample line with at least three tokens, for a block whose
header time is written `date`: the date, tokens 0 and 1, and the other tokens
joined by single spaces. -/
def rowOfLine (date : Str) (line : Str) : List Str :=
  [date, (fields line).getD 0 [], (fields line).getD 1 [], join ((fields line).drop 2) [' ']]

/-- The rows of one block, whose header is its first line, trimmed: one per line
after the header line whose split on white space has at least three tokens, in
line order. -/
def blockRows (env : LocalZone) (s : Str) : List (List Str) :=
  match parseHeader env (headerOf s) with
  | none => []
  | some date =>
    (((split s ['\n']).tail).filter (fun line => 3 ≤ (fields line).length)).map
      (rowOfLine (formatTimeOfDay env date))

/-- The rows of a log: those of its non-empty blocks, in block order. -/
def logRows (env : LocalZone) (rawProfile : Str) : List (List Str) :=
  (((split rawProfile delimiter).filter (fun s => s ≠ [])).map (blockRows env)).flatten

/-- A log whose first block has a blank before its header and lines that end in
a carriage return and a line feed, and whose second block has a blank between
the delimiter and its header. -/
def paddedLog : Str :=
  (" 01 Jan. 2024 10:00:00 UTC\r\n5.0 2.0 myproc\r\n%CPU %MEM ARGS mer." ++
   " 02 Jan. 2024 11:00:00 UTC\n3.0 1.0 other proc\n").toList

/-- A log whose second block has a header that does not parse. -/
def badHeaderLog : Str :=
  ("01 Jan. 2024 10:00:00 UTC\n5.0 2.0 myproc\n%CPU %MEM ARGS mer." ++
   "yesterday\n3.0 1.0 other proc\n").toList

/-- A Row together with the text its two numbers are written as. -/
structure Sample (F : Type) where
  row : Row F
  cpuText : Str
  memText : Str

/-- The line of the stored file for a Row: the fields that `generateData` gives
to the CSV writer, time (as `Format(dateOutFmt)` writes it), cpu, mem, process. -/
def Sample.line (env : LocalZone) (s : Sample F) : List Str :=
  [formatTimeOfDay env s.row.Date, s.cpuText, s.memText, s.row.Process]

/-- The Rows of the round trip: the time is a time of day in whole seconds (the
clock on 1 January of year 0, UTC, as `time.Parse(dateOutFmt, _)` gives it), cpu
and mem are the values of their texts under `strconv.ParseFloat`, and the process
is the join by single spaces of one or more tokens without white space. -/
def Sample.WellFormed (fl : FloatOps F) (s : Sample F) : Prop :=
  (∃ h m sec, h < 24 ∧ m < 60 ∧ sec < 60 ∧ s.row.Date = dateUTC 0 1 1 h m sec 0) ∧
  fl.parseFloat s.cpuText = some s.row.CpuPct ∧
  fl.parseFloat s.memText = some s.row.Mem ∧
  ∃ tokens : List Str, tokens ≠ [] ∧ (∀ t ∈ tokens, ∀ c ∈ t, isSpace c = false) ∧
    s.row.Process = join tokens [' ']

/-- The two Rows of the worked example, with the texts of their numbers. -/
def exampleSamples : List (Sample (Nat × Nat)) :=
  [⟨⟨dateUTC 0 1 1 10 0 0 0, (50, 1), (20, 1), "myproc".toList⟩, "5.0".toList, "2.0".toList⟩,
   ⟨⟨dateUTC 0 1 1 11 0 0 0, (30, 1), (10, 1), "other proc".toList⟩, "3.0".toList,
    "1.0".toList⟩]

/-- What a handler leaves in its `http.ResponseWriter`: the status code and the
bytes of the body. -/
structure Response where
  status : Nat
  body : Str
  deriving DecidableEq, Repr

/-- Go `http.Error(w, msg, code)`: the status code is written, then the message
with `fmt.Fprintln`, that is, followed by a line feed. -/
def httpError (msg : Str) (code : Nat) : Response := ⟨code, msg ++ ['\n']⟩

/-- The constant `http.StatusInternalServerError`. -/
def statusInternalServerError : Nat := 500

/-- The function `dataHandler`; `profile` is the content of the stored file, or
`none` when it cannot be opened.  When `readData` returns no error the handler
calls `tableJSON` with the response writer, whose first `Write` sends status
200; an error of `tableJSON` is only logged. -/
def dataHandler (fl : FloatOps F) (encode : Value F → Option Error × Str)
    (profile : Option Str) : Response :=
  match readData fl profile with
  | (_, some _) => httpError "can't fetch data".toList statusInternalServerError
  | (table, none) => ⟨200, (tableJSON encode table).2⟩

/-- The keys of a map value. -/
def Value.keys : Value F → List Str
  | Value.map members => members.map (fun kv => kv.1)
  | _ => []

/-- A sample encoder: it writes, in two digits, the number of entries of `y` in
the one trace of `data`, and fails on any other value. -/
def sampleEncode (v : Value (Nat × Nat)) : Option Error × Str :=
  match v.path ["data".toList] with
  | some (Value.slice [trace]) =>
    match trace.member "y".toList with
    | some (Value.slice ys) => (none, pad2 ys.length)
    | _ => (some Error.eof, [])
  | _ => (some Error.eof, [])

/-- A stored file that is the header line and nothing else. -/
def headerOnlyFile : Str := "time,cpu,mem,proc\n".toList

/-- A stored file whose second data line has a quote inside an unquoted field. -/
def badQuoteFile : Str :=
  "time,cpu,mem,proc\n10:00:00,1,2,a\n10:00:01,1,2,b\"c\n10:00:02,3,4,d\n".toList

/-- The time of day that the text `Format(dateOutFmt)` writes for `t` parses
back to: the clock of `t` on 1 January of year 0, in UTC. -/
def clockOf (env : LocalZone) (t : Time) : Time :=
  dateUTC 0 1 1 (t.secOfDay env / 3600) (t.secOfDay env % 3600 / 60) (t.secOfDay env % 60) 0

/-- The Row of a sample line if its first two tokens both parse as floats: the
given time of day, the two numbers, and the other tokens joined by single
spaces. -/
def keptRow (fl : FloatOps F) (date : Time) (line : Str) : Option (Row F) :=
  match fl.parseFloat ((fields line).getD 0 []), fl.parseFloat ((fields line).getD 1 []) with
  | some cpu, some mem => some ⟨date, cpu, mem, join ((fields line).drop 2) [' ']⟩
  | _, _ => none

/-- The Rows a block leaves in the Table: among the lines after the header with
at least three tokens, those whose first two tokens parse as floats. -/
def blockKept (fl : FloatOps F) (env : LocalZone) (s : Str) : List (Row F) :=
  match parseHeader env (headerOf s) with
  | none => []
  | some date =>
    (((split s ['\n']).tail).filter (fun line => 3 ≤ (fields line).length)).filterMap
      (keptRow fl (clockOf env date))

/-- The Rows a log leaves in the Table, block by block. -/
def logKept (fl : FloatOps F) (env : LocalZone) (rawProfile : Str) : List (Row F) :=
  (((split rawProfile delimiter).filter (fun s => s ≠ [])).map (blockKept fl env)).flatten

/-- A log whose block has the column titles of `ps` as its first sample line. -/
def titlesLog : Str :=
  "01 Jan. 2024 10:00:00 UTC\n%CPU %MEM ARGS\n5.0 2.0 myproc\n".toList

/-- The fields `time.Parse` reads in a block header, and the text left for the
zone. -/
structure HeaderFields where
  year : Nat
  month : Nat
  day : Nat
  hour : Nat
  min : Nat
  sec : Nat
  nsec : Nat
  zone : Str
  deriving DecidableEq, Repr

/-- The fields of a header, read as `parseHeader` reads them, up to the zone. -/
def headerFields (value : Str) : Option HeaderFields :=
  (getnum true value).bind fun dv =>
  (skipSpace dv.2).bind fun v =>
  (lookup shortMonthNames v).bind fun mv =>
  (skipLit '.' mv.2).bind fun v =>
  (skipSpace v).bind fun v =>
  (parseLongYear v).bind fun yv =>
  (skipSpace yv.2).bind fun v =>
  (parseClock v).bind fun c =>
  (skipSpace c.2.2.2.2).bind fun v =>
  some ⟨yv.1, mv.1 + 1, dv.1, c.1, c.2.1, c.2.2.1, c.2.2.2.1, v⟩

/-- The instant of a header when its clock is read as UTC, in seconds. -/
def HeaderFields.utcSec (f : HeaderFields) : Int :=
  (dateUTC f.year f.month f.day f.hour f.min f.sec f.nsec).sec

/-- By how many seconds the time that `time.Parse` makes of a header shows a
later clock than the header holds: nothing for `UTC`; for an abbreviation that
the local zone data knows, the offset in force at the instant found less the
offset looked up for the abbreviation; for another abbreviation, the hours of
`GMT+h`, or nothing. -/
def zoneShift (env : LocalZone) (f : HeaderFields) : Int :=
  if f.zone.take 3 = "UTC".toList then 0
  else
    match env.lookupName f.zone f.utcSec with
    | some offset => env.lookup (f.utcSec - offset) - offset
    | none =>
      if f.zone.length > 3 && f.zone.take 3 = "GMT".toList then
        atoiSigned (f.zone.drop 3) * 3600
      else 0

/-- Two blocks that differ at most in the day, month, year and zone of their
header lines (and in the spaces and fraction of second there): both empty, or
both with a header that parses, with the same hour, minute and second, zones
that shift the clock alike (up to whole days), and the same lines after the
header. -/
def SameClock (env : LocalZone) (s s2 : Str) : Prop :=
  (s = [] ∧ s2 = []) ∨
  (s ≠ [] ∧ s2 ≠ [] ∧ (split s ['\n']).tail = (split s2 ['\n']).tail ∧
    ∃ f f2 : HeaderFields,
      headerFields (headerOf s) = some f ∧ headerFields (headerOf s2) = some f2 ∧
      parseHeader env (headerOf s) ≠ none ∧ parseHeader env (headerOf s2) ≠ none ∧
      f.hour = f2.hour ∧ f.min = f2.min ∧ f.sec = f2.sec ∧
      zoneShift env f % 86400 = zoneShift env f2 % 86400)

/-- A sample of local zone data: the abbreviations `CET` (one hour) and `CEST`
(two hours), the latter in force from 26 March to 29 October 2023 at 01:00 UTC. -/
def parisZone : LocalZone where
  lookupName := fun name _ =>
    if name = "CET".toList then some 3600
    else if name = "CEST".toList then some 7200
    else none
  lookup := fun sec =>
    if (dateUTC 2023 3 26 1 0 0 0).sec ≤ sec ∧ sec < (dateUTC 2023 10 29 1 0 0 0).sec then 7200
    else 3600

/-- A log of one block whose header is a day of January in the zone `CET`. -/
def cetHeaderLog : Str := "15 Jan. 2024 10:00:00 CET\n5.0 2.0 myproc\n".toList

/-- A log of one block whose header is in `UTC`. -/
def utcHeaderLog : Str := "01 Jan. 2024 10:00:00 UTC\n5.0 2.0 myproc\n".toList

/-- The same log with the header in the zone `GMT+3`. -/
def gmtHeaderLog : Str := "01 Jan. 2024 10:00:00 GMT+3\n5.0 2.0 myproc\n".toList

/-- The same log on another day, in the zone `CEST`. -/
def cestHeaderLog : Str := "15 Jul. 2023 10:00:00 CEST\n5.0 2.0 myproc\n".toList

/-! ## decodeRow -/

theorem decodeRow_short (fl : FloatOps F) (rec : List Str) (h : rec.length < 4) :
    decodeRow fl rec = (Row.zero fl, some Error.errRecNotGood) := by
  simp [decodeRow, h]

theorem decodeRow_long (fl : FloatOps F) (rec : List Str) (h : 4 ≤ rec.length) :
    decodeRow fl rec =
      match parseTimeOfDay (rec.getD 0 []) with
      | none => (Row.zero fl, some (Error.timeParse dateOutFmt (rec.getD 0 [])))
      | some date =>
        match fl.parseFloat (rec.getD 1 []) with
        | none => (Row.zero fl, some (Error.numError (rec.getD 1 [])))
        | some cpu =>
          match fl.parseFloat (rec.getD 2 []) with
          | none => (Row.zero fl, some (Error.numError (rec.getD 2 [])))
          | some mem => (⟨date, cpu, mem, rec.getD 3 []⟩, none) := by
  have : ¬ rec.length < 4 := by omega
  simp [decodeRow, this]

/-- C6: for a record of at least four fields, `decodeRow` succeeds exactly when
field 0 parses under `15:04:05` and fields 1 and 2 parse as floats; the Row is
then made of the three parsed values and field 3 unchanged, later fields are
ignored, and on failure the returned Row is the zero Row. -/
theorem decodeRow_succeeds_iff (fl : FloatOps F) (rec : List Str) (h : 4 ≤ rec.length) :
    ((decodeRow fl rec).2 = none ↔
      ∃ date cpu mem, parseTimeOfDay (rec.getD 0 []) = some date ∧
        fl.parseFloat (rec.getD 1 []) = some cpu ∧
        fl.parseFloat (rec.getD 2 []) = some mem) ∧
    (∀ date cpu mem, parseTimeOfDay (rec.getD 0 []) = some date →
        fl.parseFloat (rec.getD 1 []) = some cpu →
        fl.parseFloat (rec.getD 2 []) = some mem →
        decodeRow fl rec = (⟨date, cpu, mem, rec.getD 3 []⟩, none)) ∧
    decodeRow fl rec = decodeRow fl (rec.take 4) ∧
    ((decodeRow fl rec).2 ≠ none → (decodeRow fl rec).1 = Row.zero fl) := by
  have h4 : 4 ≤ (rec.take 4).length := by simp [List.length_take]; omega
  have hget : ∀ i, i < 4 → (rec.take 4).getD i [] = rec.getD i [] := by
    intro i hi
    simp [List.getD_eq_getElem?_getD, List.getElem?_take, hi]
  refine ⟨?_, ?_, ?_, ?_⟩
  · rw [decodeRow_long fl rec h]
    cases h0 : parseTimeOfDay (rec.getD 0 []) <;>
    cases h1 : fl.parseFloat (rec.getD 1 []) <;>
    cases h2 : fl.parseFloat (rec.getD 2 []) <;> simp
  · intro date cpu mem h0 h1 h2
    rw [decodeRow_long fl rec h, h0, h1, h2]
  · rw [decodeRow_long fl rec h, decodeRow_long fl _ h4,
      hget 0 (by omega), hget 1 (by omega), hget 2 (by omega), hget 3 (by omega)]
  · rw [decodeRow_long fl rec h]
    cases h0 : parseTimeOfDay (rec.getD 0 []) <;>
    cases h1 : fl.parseFloat (rec.getD 1 []) <;>
    cases h2 : fl.parseFloat (rec.getD 2 []) <;> simp

/-- C7: `decodeRow` returns `errRecNotGood` exactly for the records of fewer
than four fields, whatever the fields hold. -/
theorem decodeRow_errRecNotGood_iff (fl : FloatOps F) (rec : List Str) :
    (decodeRow fl rec).2 = some Error.errRecNotGood ↔ rec.length < 4 := by
  constructor
  · intro h
    by_contra hlen
    rw [decodeRow_long fl rec (by omega)] at h
    revert h
    cases h0 : parseTimeOfDay (rec.getD 0 []) <;>
    cases h1 : fl.parseFloat (rec.getD 1 []) <;>
    cases h2 : fl.parseFloat (rec.getD 2 []) <;> simp
  · intro h
    rw [decodeRow_short fl rec h]

/-! ## The worked example -/

theorem formatTimeOfDay_utc (env : LocalZone) (t : Time) (h : t.loc = Loc.utc) :
    formatTimeOfDay env t = formatTimeOfDay utcLocal t := by
  simp [formatTimeOfDay, Time.secOfDay, Time.offset, h]

theorem blockLoop_nil (env : LocalZone) (lines : List (List Str)) :
    blockLoop env lines [] = Except.ok lines := by
  rw [blockLoop]

theorem blockLoop_empty (env : LocalZone) (lines : List (List Str)) (more : List Str) :
    blockLoop env lines ([] :: more) = blockLoop env lines more := by
  rw [blockLoop]; simp

theorem blockLoop_header_ok (env : LocalZone) (lines : List (List Str)) (s : Str)
    (more : List Str) (date : Time) (hs : s ≠ [])
    (hd : parseHeader env (trimSpace ((split s ['\n']).headD [])) = some date) :
    blockLoop env lines (s :: more) =
      blockLoop env (sampleLoop (formatTimeOfDay env date) lines (split s ['\n']).tail) more := by
  rw [blockLoop]; simp only [hs, if_false, hd]

theorem blockLoop_header_bad (env : LocalZone) (lines : List (List Str)) (s : Str)
    (more : List Str) (hs : s ≠ [])
    (hd : parseHeader env (trimSpace ((split s ['\n']).headD [])) = none) :
    blockLoop env lines (s :: more) =
      Except.error (Error.timeParse headerLayout (trimSpace ((split s ['\n']).headD []))) := by
  rw [blockLoop]; simp only [hs, if_false, hd]

/-- C3: on the example log the parsing loops of `generateData` end without error
with two rows after the header line, `10:00:00, 5.0, 2.0, myproc` and
`11:00:00, 3.0, 1.0, other proc`, in this order, whatever the local zone data,
and `generateData` returns no error. -/
theorem parseLog_exampleLog (env : LocalZone) (old : Option Str) :
    parseLog env exampleLog = Except.ok [profileHeader,
      ["10:00:00".toList, "5.0".toList, "2.0".toList, "myproc".toList],
      ["11:00:00".toList, "3.0".toList, "1.0".toList, "other proc".toList]] ∧
    (generateData env ⟨some exampleLog, old, true⟩).1 = none := by
  have hsplit : split exampleLog delimiter =
      ["01 Jan. 2024 10:00:00 UTC\n5.0 2.0 myproc\n".toList,
       "02 Jan. 2024 11:00:00 UTC\n3.0 1.0 other proc\n".toList] := by decide
  have h : parseLog env exampleLog = Except.ok [profileHeader,
      ["10:00:00".toList, "5.0".toList, "2.0".toList, "myproc".toList],
      ["11:00:00".toList, "3.0".toList, "1.0".toList, "other proc".toList]] := by
    rw [parseLog, hsplit,
      blockLoop_header_ok env _ _ _ ⟨63871322400, 0, Loc.utc⟩ (by decide) (by rfl),
      formatTimeOfDay_utc env _ rfl,
      blockLoop_header_ok env _ _ _ ⟨63871412400, 0, Loc.utc⟩ (by decide) (by rfl),
      formatTimeOfDay_utc env _ rfl, blockLoop_nil]
    exact congrArg Except.ok (by decide)
  exact ⟨h, by simp [generateData, h]⟩

/-! ## tableJSON -/

theorem parseTimeOfDay_min :
    parseTimeOfDay "10:58:26".toList = some (dateUTC 0 1 1 10 58 26 0) := by decide

theorem parseTimeOfDay_max :
    parseTimeOfDay "18:14:58".toList = some (dateUTC 0 1 1 18 14 58 0) := by decide

/-- C10: for every Table and every behaviour of the encoder, the value that
`tableJSON` hands to the JSON encoder is the map `reply` built with the two
fixed times, whose `layout.yaxis.range` is `[0, 500]` and whose
`layout.xaxis.range` is the pair of times 10:58:26 and 18:14:58 (shown by
`Format` as these clock texts); the two ranges are the same for all Tables. -/
theorem tableJSON_ranges (encode : Value F → Option Error × Str) (table : Table F) :
    tableJSON encode table =
      encode (reply (dateUTC 0 1 1 10 58 26 0) (dateUTC 0 1 1 18 14 58 0) table) ∧
    (reply (dateUTC 0 1 1 10 58 26 0) (dateUTC 0 1 1 18 14 58 0) table).path
      ["layout".toList, "yaxis".toList, "range".toList] =
      some (Value.slice [Value.int 0, Value.int 500]) ∧
    (reply (dateUTC 0 1 1 10 58 26 0) (dateUTC 0 1 1 18 14 58 0) table).path
      ["layout".toList, "xaxis".toList, "range".toList] =
      some (Value.slice [Value.time (dateUTC 0 1 1 10 58 26 0),
        Value.time (dateUTC 0 1 1 18 14 58 0)]) ∧
    formatTimeOfDay utcLocal (dateUTC 0 1 1 10 58 26 0) = "10:58:26".toList ∧
    formatTimeOfDay utcLocal (dateUTC 0 1 1 18 14 58 0) = "18:14:58".toList := by
  refine ⟨?_, ?_, ?_, by decide, by decide⟩
  · simp only [tableJSON, parseTimeOfDay_min, parseTimeOfDay_max]
  · rfl
  · rfl

/-! ## readData -/

theorem Table.ofRows_append (rows : List (Row F)) (row : Row F) :
    (Table.ofRows rows).append row = Table.ofRows (rows ++ [row]) := by
  simp [Table.ofRows, Table.append]

theorem decodedRows_cons (fl : FloatOps F) (rec : List Str) (records : List (List Str)) :
    decodedRows fl (rec :: records) =
      (match decodeOk fl rec with
        | some row => [row]
        | none => []) ++ decodedRows fl records := by
  unfold decodedRows
  rw [List.filterMap_cons]
  cases decodeOk fl rec <;> simp

theorem loopBody_ofRows (fl : FloatOps F) (rows : List (Row F)) (rec : List Str) :
    loopBody fl (Table.ofRows rows) rec =
      Table.ofRows (rows ++ decodedRows fl [rec]) := by
  rw [decodedRows_cons]
  unfold loopBody decodeOk
  rcases hd : decodeRow fl rec with ⟨row, _ | e⟩ <;>
    simp [Table.ofRows_append, decodedRows]

/-- The loop of `readData` appends the Rows of the current record and of the
records the reader returns before its first error, and ends with a nil error. -/
theorem readLoop_eq (fl : FloatOps F) (reader : List (Except CsvError (List Str))) :
    ∀ (rows : List (Row F)) (rec : List Str),
      readLoop fl (Table.ofRows rows) rec none reader =
        (Table.ofRows (rows ++ decodedRows fl (rec :: okPrefix reader)), none) := by
  induction reader with
  | nil =>
    intro rows rec
    simp [readLoop, loopBody_ofRows, okPrefix]
  | cons r more ih =>
    intro rows rec
    cases r with
    | error e => simp [readLoop, loopBody_ofRows, okPrefix]
    | ok record =>
      rw [readLoop, if_neg (by simp), if_neg (by simp), loopBody_ofRows, ih]
      rw [decodedRows_cons fl rec, decodedRows_cons fl rec, okPrefix]
      simp [decodedRows]

theorem decodeOk_nil (fl : FloatOps F) : decodeOk fl [] = none := by
  simp [decodeOk, decodeRow]

/-- What `readData` returns for a file whose header record is read: the Rows of
the records read after the header and before the first reader error. -/
theorem readData_eq (fl : FloatOps F) (content : Str) (hdr : List Str)
    (rest : List (Except CsvError (List Str)))
    (h : newReader content = Except.ok hdr :: rest) :
    readData fl (some content) = (Table.ofRows (decodedRows fl (okPrefix rest)), none) := by
  have := readLoop_eq fl rest [] []
  rw [decodedRows_cons, decodeOk_nil] at this
  simp only [readData, h, read]
  exact this

theorem readData_header_error (fl : FloatOps F) (content : Str)
    (h : ∀ hdr rest, newReader content ≠ Except.ok hdr :: rest) :
    (readData fl (some content)).1 = Table.empty := by
  simp only [readData]
  rcases hr : newReader content with _ | ⟨r, rest⟩
  · simp [read]
  · cases r with
    | error e => simp [read]
    | ok hdr => exact absurd hr (h hdr rest)

theorem mem_okPrefix (reader : List (Except CsvError (List Str))) (rec : List Str)
    (h : rec ∈ okPrefix reader) : Except.ok rec ∈ reader := by
  induction reader with
  | nil => simp [okPrefix] at h
  | cons r more ih =>
    cases r with
    | error e => simp [okPrefix] at h
    | ok record =>
      simp only [okPrefix, List.mem_cons] at h
      rcases h with h | h
      · simp [h]
      · exact List.mem_cons_of_mem _ (ih h)

theorem decodeOk_eq_some (fl : FloatOps F) (rec : List Str) (row : Row F) :
    decodeOk fl rec = some row ↔ decodeRow fl rec = (row, none) := by
  unfold decodeOk
  rcases hd : decodeRow fl rec with ⟨r, _ | e⟩ <;> simp

theorem Table.ofRows_lengths (rows : List (Row F)) :
    (Table.ofRows rows).Date.length = rows.length ∧
    (Table.ofRows rows).CpuPct.length = rows.length ∧
    (Table.ofRows rows).Mem.length = rows.length ∧
    (Table.ofRows rows).Process.length = rows.length := by
  simp [Table.ofRows]

theorem Table.ofRows_index (rows : List (Row F)) (i : Nat) (d : Time) (c m : F) (p : Str)
    (hd : (Table.ofRows rows).Date[i]? = some d)
    (hc : (Table.ofRows rows).CpuPct[i]? = some c)
    (hm : (Table.ofRows rows).Mem[i]? = some m)
    (hp : (Table.ofRows rows).Process[i]? = some p) :
    rows[i]? = some ⟨d, c, m, p⟩ := by
  simp only [Table.ofRows, List.getElem?_map] at hd hc hm hp
  cases hr : rows[i]? with
  | none => simp [hr] at hd
  | some row =>
    simp only [hr, Option.map_some', Option.some.injEq] at hd hc hm hp
    subst hd hc hm hp
    rfl

/-- Every `Table` that `readData` returns lists the Rows decoded from records
read after the header of the file. -/
theorem readData_ofRows (fl : FloatOps F) (profile : Option Str) :
    ∃ rows : List (Row F), (readData fl profile).1 = Table.ofRows rows ∧
      ∀ row ∈ rows, ∃ content rec, profile = some content ∧
        Except.ok rec ∈ (newReader content).tail ∧ decodeRow fl rec = (row, none) := by
  cases profile with
  | none => exact ⟨[], by simp [readData, Table.ofRows, Table.empty], by simp⟩
  | some content =>
    rcases hr : newReader content with _ | ⟨r, rest⟩
    · exact ⟨[], by simp [readData, hr, read, Table.ofRows, Table.empty], by simp⟩
    · cases r with
      | error e => exact ⟨[], by simp [readData, hr, read, Table.ofRows, Table.empty], by simp⟩
      | ok hdr =>
        refine ⟨decodedRows fl (okPrefix rest), by rw [readData_eq fl content hdr rest hr], ?_⟩
        intro row hrow
        simp only [decodedRows, List.mem_filterMap] at hrow
        obtain ⟨rec, hmem, hdec⟩ := hrow
        exact ⟨content, rec, rfl, by simpa [hr] using mem_okPrefix rest rec hmem,
          (decodeOk_eq_some fl rec row).1 hdec⟩

/-- C9: every Table that `readData` returns, with or without an error, has four
columns of the same length, and the four entries at one index are the fields of
the Row that `decodeRow` makes of one record read from the file after its
header. -/
theorem readData_columns (fl : FloatOps F) (profile : Option Str) :
    ((readData fl profile).1.CpuPct.length = (readData fl profile).1.Date.length ∧
     (readData fl profile).1.Mem.length = (readData fl profile).1.Date.length ∧
     (readData fl profile).1.Process.length = (readData fl profile).1.Date.length) ∧
    ∀ (i : Nat) (d : Time) (c m : F) (p : Str),
      (readData fl profile).1.Date[i]? = some d →
      (readData fl profile).1.CpuPct[i]? = some c →
      (readData fl profile).1.Mem[i]? = some m →
      (readData fl profile).1.Process[i]? = some p →
      ∃ content rec, profile = some content ∧
        Except.ok rec ∈ (newReader content).tail ∧
        decodeRow fl rec = (⟨d, c, m, p⟩, none) := by
  obtain ⟨rows, ht, hrows⟩ := readData_ofRows fl profile
  rw [ht]
  obtain ⟨h1, h2, h3, h4⟩ := Table.ofRows_lengths rows
  refine ⟨⟨by omega, by omega, by omega⟩, ?_⟩
  intro i d c m p hd hc hm hp
  have hi := Table.ofRows_index rows i d c m p hd hc hm hp
  exact hrows _ (List.getElem?_mem hi)

theorem checkFieldCount_ok (n : Nat) (hn : 0 < n) (data : List (List Str))
    (h : ∀ r ∈ data, r.length = n) :
    checkFieldCount (n : Int) (data.map Except.ok) = data.map Except.ok := by
  induction data with
  | nil => simp [checkFieldCount]
  | cons r more ih =>
    have hr : r.length = n := h r (by simp)
    have hpos : (n : Int) > 0 := by omega
    simp only [List.map_cons, checkFieldCount, hpos, if_true, hr, ne_eq, not_true_eq_false,
      if_false]
    rw [ih (fun x hx => h x (List.mem_cons_of_mem _ hx))]

theorem newReader_ok (content : Str) (hdr : List Str) (data : List (List Str))
    (hraw : parseRecords content = (hdr :: data).map Except.ok)
    (hh : 0 < hdr.length) (hd : ∀ r ∈ data, r.length = hdr.length) :
    newReader content = Except.ok hdr :: data.map Except.ok := by
  simp only [newReader, csvReads, hraw, List.map_cons, checkFieldCount]
  simp only [gt_iff_lt, lt_self_iff_false, if_false, if_true]
  rw [checkFieldCount_ok hdr.length hh data hd]

theorem okPrefix_map_ok (data : List (List Str)) : okPrefix (data.map Except.ok) = data := by
  induction data with
  | nil => rfl
  | cons r more ih => simp [okPrefix, ih]

/-- C4, as amended: for every stored file that the CSV parser splits into a
header of four fields and data lines of four fields each, `readData` returns,
with a nil error, the Table of exactly the data lines that `decodeRow` accepts,
in file order: a line that `decodeRow` rejects is left out and every other
line, before and after it, is present. -/
theorem readData_four_fields (fl : FloatOps F) (content : Str) (hdr : List Str)
    (data : List (List Str))
    (hraw : parseRecords content = (hdr :: data).map Except.ok)
    (hh : hdr.length = 4) (hd : ∀ r ∈ data, r.length = 4) :
    readData fl (some content) = (Table.ofRows (decodedRows fl data), none) := by
  have hr := newReader_ok content hdr data hraw (by omega) (by simpa [hh] using hd)
  rw [readData_eq fl content hdr _ hr, okPrefix_map_ok]

/-- Witness of C4: in `badCpuFile` the line with cpu field `x` is left out and
the lines before and after it are in the Table. -/
theorem readData_four_fields_witness :
    readData decimalFloat (some badCpuFile) =
      (⟨[dateUTC 0 1 1 10 0 0 0, dateUTC 0 1 1 10 0 2 0], [(1, 0), (3, 0)],
        [(2, 0), (4, 0)], ["a".toList, "c".toList]⟩, none) :=
  (readData_four_fields decimalFloat badCpuFile profileHeader
    [["10:00:00".toList, "1".toList, "2".toList, "a".toList],
     ["10:00:01".toList, "x".toList, "2".toList, "b".toList],
     ["10:00:02".toList, "3".toList, "4".toList, "c".toList]]
    (by rfl) (by decide) (by decide)).trans (by decide)

/-- Counterexample to C4 as stated: `shortHeaderFile` has a readable header and
one data line, of four fields, that `decodeRow` accepts, and `readData` returns
the empty Table. -/
theorem readData_shortHeaderFile :
    parseRecords shortHeaderFile =
      [Except.ok ["a".toList, "b".toList, "c".toList],
       Except.ok ["10:00:00".toList, "1".toList, "2".toList, "p".toList]] ∧
    decodeRow decimalFloat ["10:00:00".toList, "1".toList, "2".toList, "p".toList] =
      (⟨dateUTC 0 1 1 10 0 0 0, (1, 0), (2, 0), "p".toList⟩, none) ∧
    readData decimalFloat (some shortHeaderFile) = (Table.empty, none) :=
  ⟨by rfl, by decide, by decide⟩

/-- C5 at a failing input: in `shortLineFile` the line `a,b,c` has three fields;
the reader returns `ErrFieldCount` for it, the loop of `readData` ends there,
and the next line, which `decodeRow` accepts, is not in the returned Table. -/
theorem readData_shortLineFile :
    parseRecords shortLineFile =
      [Except.ok profileHeader,
       Except.ok ["a".toList, "b".toList, "c".toList],
       Except.ok ["10:00:00".toList, "1".toList, "2".toList, "p".toList]] ∧
    newReader shortLineFile =
      [Except.ok profileHeader, Except.error CsvError.fieldCount] ∧
    decodeRow decimalFloat ["10:00:00".toList, "1".toList, "2".toList, "p".toList] =
      (⟨dateUTC 0 1 1 10 0 0 0, (1, 0), (2, 0), "p".toList⟩, none) ∧
    readData decimalFloat (some shortLineFile) = (Table.empty, none) :=
  ⟨by rfl, by rfl, by decide, by decide⟩

/-- Witness of C6, on a record of five fields. -/
theorem decodeRow_succeeds_iff_witness :
    decodeRow decimalFloat
      ["10:00:00".toList, "1.5".toList, "2".toList, "my proc".toList, "more".toList] =
      (⟨dateUTC 0 1 1 10 0 0 0, (15, 1), (2, 0), "my proc".toList⟩, none) :=
  (decodeRow_succeeds_iff decimalFloat
    ["10:00:00".toList, "1.5".toList, "2".toList, "my proc".toList, "more".toList]
    (by decide)).2.1 _ _ _ (by decide) (by decide) (by decide)

/-! ## generateData -/

theorem blockLoop_error (env : LocalZone) (blocks : List Str) :
    ∀ lines : List (List Str),
      (∃ s ∈ blocks, s ≠ [] ∧ parseHeader env (headerOf s) = none) →
      ∃ (pre : List Str) (s : Str) (post : List Str), blocks = pre ++ s :: post ∧
        (∀ b ∈ pre, b ≠ [] → parseHeader env (headerOf b) ≠ none) ∧
        s ≠ [] ∧ parseHeader env (headerOf s) = none ∧
        blockLoop env lines blocks = Except.error (Error.timeParse headerLayout (headerOf s)) := by
  induction blocks with
  | nil => intro lines h; simp at h
  | cons b more ih =>
    intro lines h
    by_cases hb : b = []
    · subst hb
      obtain ⟨s, hs, hne, hbad⟩ := h
      have hs' : s ∈ more := by
        rcases List.mem_cons.1 hs with h1 | h1
        · exact absurd h1 hne
        · exact h1
      obtain ⟨pre, s2, post, hsplit, hpre, hne2, hbad2, heq⟩ := ih lines ⟨s, hs', hne, hbad⟩
      refine ⟨[] :: pre, s2, post, by rw [hsplit]; rfl, ?_, hne2, hbad2,
        by rw [blockLoop_empty, heq]⟩
      intro x hx hxne
      rcases List.mem_cons.1 hx with h1 | h1
      · exact absurd h1 hxne
      · exact hpre x h1 hxne
    · cases hp : parseHeader env (headerOf b) with
      | none =>
        exact ⟨[], b, more, rfl, by simp, hb, hp, blockLoop_header_bad env lines b more hb hp⟩
      | some date =>
        obtain ⟨s, hs, hne, hbad⟩ := h
        have hs' : s ∈ more := by
          rcases List.mem_cons.1 hs with h1 | h1
          · subst h1; rw [hp] at hbad; cases hbad
          · exact h1
        obtain ⟨pre, s2, post, hsplit, hpre, hne2, hbad2, heq⟩ := ih _ ⟨s, hs', hne, hbad⟩
        refine ⟨b :: pre, s2, post, by rw [hsplit]; rfl, ?_, hne2, hbad2,
          by rw [blockLoop_header_ok env lines b more date hb hp, heq]⟩
        intro x hx _
        rcases List.mem_cons.1 hx with h1 | h1
        · subst h1; rw [hp]; simp
        · exact hpre x h1 (by assumption)

/-- C8: when some non-empty block of the log has a first line that, trimmed,
does not parse under the header layout, `generateData` returns the parse error
of the first such block and leaves the files as they were: the intermediate
file is neither created nor overwritten, whatever rows the blocks before it
gave. -/
theorem generateData_header_error (env : LocalZone) (files : Files) (raw : Str)
    (hlog : files.psLog = some raw)
    (hbad : ∃ s ∈ split raw delimiter, s ≠ [] ∧ parseHeader env (headerOf s) = none) :
    ∃ (pre : List Str) (s : Str) (post : List Str), split raw delimiter = pre ++ s :: post ∧
      (∀ b ∈ pre, b ≠ [] → parseHeader env (headerOf b) ≠ none) ∧
      s ≠ [] ∧ parseHeader env (headerOf s) = none ∧
      generateData env files = (some (Error.timeParse headerLayout (headerOf s)), files) := by
  obtain ⟨pre, s, post, hsplit, hpre, hne, hp, heq⟩ :=
    blockLoop_error env (split raw delimiter) [profileHeader] hbad
  refine ⟨pre, s, post, hsplit, hpre, hne, hp, ?_⟩
  simp only [generateData, hlog, parseLog, heq]

/-- Witness of C8: the second block of `badHeaderLog` starts with `yesterday`;
the first block parses and has a row, and still the stored file keeps its old
content. -/
theorem generateData_header_error_witness :
    generateData utcLocal ⟨some badHeaderLog, some "old".toList, true⟩ =
      (some (Error.timeParse headerLayout "yesterday".toList),
        ⟨some badHeaderLog, some "old".toList, true⟩) := by
  obtain ⟨pre, s, post, hsplit, -, hne, hp, heq⟩ :=
    generateData_header_error utcLocal ⟨some badHeaderLog, some "old".toList, true⟩
      badHeaderLog rfl
      ⟨"yesterday\n3.0 1.0 other proc\n".toList, by decide, by decide, by decide⟩
  rw [heq]
  have hs : s ∈ split badHeaderLog delimiter := by rw [hsplit]; simp
  have hblocks : split badHeaderLog delimiter =
      ["01 Jan. 2024 10:00:00 UTC\n5.0 2.0 myproc\n".toList,
       "yesterday\n3.0 1.0 other proc\n".toList] := by decide
  rw [hblocks] at hs
  simp only [List.mem_cons, List.mem_singleton, List.not_mem_nil, or_false] at hs
  rcases hs with h1 | h1
  · subst h1
    exact absurd hp (by decide)
  · subst h1
    have : headerOf "yesterday\n3.0 1.0 other proc\n".toList = "yesterday".toList := by decide
    rw [this]

theorem fieldsAux_nil_dropWhile (s : Str) :
    fieldsAux [] (s.dropWhile isSpace) = fieldsAux [] s := by
  induction s with
  | nil => rfl
  | cons c cs ih =>
    by_cases hc : isSpace c = true
    · rw [List.dropWhile_cons_of_pos hc, ih]
      conv_rhs => rw [fieldsAux]
      simp [hc]
    · rw [List.dropWhile_cons_of_neg hc]

theorem fieldsAux_concat_space (s : Str) (c : Char) (hc : isSpace c = true) :
    ∀ cur : Str, fieldsAux cur (s ++ [c]) = fieldsAux cur s := by
  induction s with
  | nil =>
    intro cur
    by_cases h : cur = [] <;> simp [fieldsAux, hc, h]
  | cons d ds ih =>
    intro cur
    rw [List.cons_append, fieldsAux, fieldsAux, ih, ih]

theorem fieldsAux_rdropWhile (s : Str) (cur : Str) :
    fieldsAux cur ((s.reverse.dropWhile isSpace).reverse) = fieldsAux cur s := by
  induction s using List.reverseRecOn with
  | nil => rfl
  | append_singleton ds c ih =>
    rw [List.reverse_append, List.reverse_singleton, List.singleton_append]
    by_cases hc : isSpace c = true
    · rw [List.dropWhile_cons_of_pos hc, ih, fieldsAux_concat_space ds c hc]
    · rw [List.dropWhile_cons_of_neg hc]
      simp

/-- `strings.Fields` gives the same tokens before and after `strings.TrimSpace`. -/
theorem fields_trimSpace (s : Str) : fields (trimSpace s) = fields s := by
  unfold fields trimSpace
  rw [fieldsAux_rdropWhile, fieldsAux_nil_dropWhile]

theorem sampleLoop_eq (date : Str) (ls : List Str) :
    ∀ lines : List (List Str),
      sampleLoop date lines ls =
        lines ++ (ls.filter (fun line => 3 ≤ (fields line).length)).map (rowOfLine date) := by
  induction ls with
  | nil => intro lines; simp [sampleLoop]
  | cons o more ih =>
    intro lines
    rw [sampleLoop]
    simp only [fields_trimSpace]
    by_cases h : (fields o).length < 3
    · have h3 : ¬ 3 ≤ (fields o).length := by omega
      simp [h, h3, ih]
    · have h3 : 3 ≤ (fields o).length := by omega
      simp [h, h3, ih, rowOfLine]

/-! ### A header that parses has no white space around it -/

theorem isSpace_toNat (c : Char) (h : isSpace c = true) : c.toNat < 33 ∨ 0x85 ≤ c.toNat := by
  unfold isSpace at h
  simp only [Bool.or_eq_true, decide_eq_true_eq, Bool.and_eq_true] at h
  rcases h with ((((((((((((((h | h) | h) | h) | h) | h) | h) | h) | h) | h) | h) | h) | h) | h) | h)
  all_goals first
    | (subst h; decide)
    | omega

theorem isSpace_of_isDigit (c : Char) (h : isDigit c = true) : isSpace c = false := by
  cases hs : isSpace c with
  | false => rfl
  | true =>
    have := isSpace_toNat c hs
    simp only [isDigit, Bool.and_eq_true, decide_eq_true_eq] at h
    have h0 : '0'.toNat = 48 := by decide
    have h9 : '9'.toNat = 57 := by decide
    omega

theorem isSpace_of_isUpper (c : Char) (h : isUpper c = true) : isSpace c = false := by
  cases hs : isSpace c with
  | false => rfl
  | true =>
    have := isSpace_toNat c hs
    simp only [isUpper, Bool.and_eq_true, decide_eq_true_eq] at h
    have h0 : 'A'.toNat = 65 := by decide
    have h9 : 'Z'.toNat = 90 := by decide
    omega

theorem trimSpace_eq_self (s : Str) (c d : Char) (hc : s.head? = some c)
    (hd : s.getLast? = some d) (hcs : isSpace c = false) (hds : isSpace d = false) :
    trimSpace s = s := by
  unfold trimSpace
  have h1 : s.dropWhile isSpace = s := by
    cases s with
    | nil => rfl
    | cons a as =>
      simp only [List.head?_cons, Option.some.injEq] at hc
      subst hc
      rw [List.dropWhile_cons_of_neg (by simp [hcs])]
  rw [h1]
  have h2 : s.reverse.head? = some d := by rw [List.head?_reverse, hd]
  have h3 : s.reverse.dropWhile isSpace = s.reverse := by
    cases hr : s.reverse with
    | nil => rfl
    | cons a as =>
      rw [hr] at h2
      simp only [List.head?_cons, Option.some.injEq] at h2
      subst h2
      rw [List.dropWhile_cons_of_neg (by simp [hds])]
  rw [h3, List.reverse_reverse]

theorem getnum_suffix (fixed : Bool) (v : Str) (r : Nat × Str) (h : getnum fixed v = some r) :
    r.2 <:+ v := by
  match v with
  | [] => simp [getnum] at h
  | [c] =>
    simp only [getnum] at h
    split at h
    · cases h; exact List.nil_suffix
    · cases h
  | c :: d :: rest =>
    simp only [getnum] at h
    split at h
    · split at h
      · cases h
        exact (List.suffix_cons d rest).trans (List.suffix_cons c _)
      · split at h
        · cases h
        · cases h; exact List.suffix_cons c _
    · cases h

theorem getnum_head (fixed : Bool) (v : Str) (r : Nat × Str) (h : getnum fixed v = some r) :
    ∃ c, v.head? = some c ∧ isDigit c = true := by
  match v with
  | [] => simp [getnum] at h
  | [c] =>
    simp only [getnum] at h
    split at h
    · rename_i hc
      simp only [Bool.and_eq_true] at hc
      exact ⟨c, rfl, hc.1⟩
    · cases h
  | c :: d :: rest =>
    simp only [getnum] at h
    split at h
    · rename_i hc
      exact ⟨c, rfl, hc⟩
    · cases h

theorem skipSpace_suffix (v r : Str) (h : skipSpace v = some r) : r <:+ v := by
  cases v with
  | nil => simp only [skipSpace, Option.some.injEq] at h; subst h; exact List.suffix_refl _
  | cons c rest =>
    simp only [skipSpace] at h
    split at h
    · cases h
      exact (List.dropWhile_suffix _).trans (List.suffix_cons _ _)
    · cases h

theorem skipLit_suffix (p : Char) (v r : Str) (h : skipLit p v = some r) : r <:+ v := by
  cases v with
  | nil => simp [skipLit] at h
  | cons c rest =>
    simp only [skipLit] at h
    split at h
    · cases h; exact List.suffix_cons _ _
    · cases h

theorem lookup_suffix (tab : List Str) (v : Str) (r : Nat × Str)
    (h : lookup tab v = some r) : r.2 <:+ v := by
  induction tab generalizing r with
  | nil => simp [lookup] at h
  | cons n tab ih =>
    simp only [lookup] at h
    split at h
    · cases h; exact List.drop_suffix _ _
    · simp only [Option.map_eq_some'] at h
      obtain ⟨a, ha, hr⟩ := h
      subst hr
      exact ih a ha

theorem parseLongYear_suffix (v : Str) (r : Nat × Str) (h : parseLongYear v = some r) :
    r.2 <:+ v := by
  unfold parseLongYear at h
  split at h
  · split at h
    · cases h
      exact ((((List.suffix_cons _ _).trans (List.suffix_cons _ _)).trans
        (List.suffix_cons _ _)).trans (List.suffix_cons _ _))
    · cases h
  · cases h

theorem fraction_suffix (v : Str) : (fraction v).2 <:+ v := by
  unfold fraction
  split
  · split
    · exact (List.dropWhile_suffix _).trans (List.suffix_cons _ _)
    · exact List.suffix_refl _
  · exact List.suffix_refl _

theorem parseClock_suffix (v : Str) (r : Nat × Nat × Nat × Nat × Str)
    (h : parseClock v = some r) : r.2.2.2.2 <:+ v := by
  unfold parseClock at h
  simp only [Option.bind_eq_some, Option.ite_none_left_eq_some] at h
  obtain ⟨a, h1, -, b, h2, c, h3, -, d, h4, e, h5, -, h6⟩ := h
  cases h6
  exact (fraction_suffix _).trans ((getnum_suffix _ _ _ h5).trans ((skipLit_suffix _ _ _ h4).trans
    ((getnum_suffix _ _ _ h3).trans ((skipLit_suffix _ _ _ h2).trans (getnum_suffix _ _ _ h1)))))

theorem parseSignedOffset_cases (sign : Char) (rest : Str) :
    parseSignedOffset (sign :: rest) = 0 ∨
    ((sign = '-' ∨ sign = '+') ∧
      parseSignedOffset (sign :: rest) = rest.length + 1 - (rest.dropWhile isDigit).length) := by
  simp only [parseSignedOffset]
  split
  · exact Or.inl rfl
  · rename_i hsign
    have hs : sign = '-' ∨ sign = '+' := by
      simp only [ne_eq, Bool.and_eq_true, decide_eq_true_eq, not_and, not_not] at hsign
      by_cases hm : sign = '-'
      · exact Or.inl hm
      · exact Or.inr (hsign hm)
    split
    · exact Or.inl rfl
    · rename_i x rem hl
      have hrem : rem = rest.dropWhile isDigit := by
        simp only [leadingInt, Option.map_eq_some', Prod.mk.injEq] at hl
        obtain ⟨_, _, _, hr⟩ := hl
        exact hr.symm
      split
      · exact Or.inl rfl
      · split
        · exact Or.inl rfl
        · right
          exact ⟨hs, by rw [hrem, List.length_cons]⟩

theorem parseSignedOffset_full (v : Str) (hv : v ≠ [])
    (h : v.drop (parseSignedOffset v) = []) : ∀ c ∈ v, isSpace c = false := by
  cases v with
  | nil => exact absurd rfl hv
  | cons sign rest =>
    have hlen := List.drop_eq_nil_iff.1 h
    simp only [List.length_cons] at hlen
    rcases parseSignedOffset_cases sign rest with h0 | ⟨hs, h1⟩
    · omega
    · have hle : (rest.dropWhile isDigit).length ≤ rest.length :=
        (List.dropWhile_suffix _).length_le
      have hnil : rest.dropWhile isDigit = [] := List.length_eq_zero.1 (by omega)
      rw [List.dropWhile_eq_nil_iff] at hnil
      intro c hc
      rcases List.mem_cons.1 hc with h2 | h2
      · subst h2
        rcases hs with hs | hs <;> (subst hs; decide)
      · exact isSpace_of_isDigit c (hnil c h2)

theorem take_drop_nil_eq (n : Nat) (v w : Str) (h1 : v.take n = w) (h2 : v.drop n = []) :
    v = w := by
  have := List.take_append_drop n v
  rw [h1, h2, List.append_nil] at this
  exact this.symm

theorem parseTimeZone_full (v : Str) (n : Nat) (h : parseTimeZone v = some n)
    (hd : v.drop n = []) : v ≠ [] ∧ ∀ c ∈ v, isSpace c = false := by
  unfold parseTimeZone at h
  split at h
  · cases h
  rename_i hlen
  have hne : v ≠ [] := by
    intro h0; subst h0; simp at hlen
  refine ⟨hne, ?_⟩
  split at h
  · rename_i h4
    cases h
    simp only [Bool.or_eq_true, decide_eq_true_eq] at h4
    rcases h4 with h4 | h4
    · rw [take_drop_nil_eq 4 v _ h4 hd]; decide
    · rw [take_drop_nil_eq 4 v _ h4 hd]; decide
  split at h
  · rename_i hg
    cases h
    unfold parseGMT at hd
    have hv : v = "GMT".toList ++ v.drop 3 := by
      conv_lhs => rw [← List.take_append_drop 3 v, hg]
    split at hd
    · rename_i h3
      rw [hv, h3]; decide
    · rename_i rest hrest
      have hd2 : (v.drop 3).drop (parseSignedOffset (v.drop 3)) = [] := by
        rw [List.drop_drop]
        exact hd
      have hall := parseSignedOffset_full (v.drop 3) (by simpa using hrest) hd2
      intro c hc
      rw [hv] at hc
      rcases List.mem_append.1 hc with h1 | h1
      · exact (by decide : ∀ c ∈ "GMT".toList, isSpace c = false) c h1
      · exact hall c h1
  split at h
  · split at h
    · cases h
      exact parseSignedOffset_full v hne hd
    · cases h
  · have hk : ((v.take 6).takeWhile isUpper).length = n := by
      split at h
      · split at h
        · cases h; assumption
        · cases h
      · split at h
        · cases h; assumption
        · cases h
      · cases h; assumption
      · cases h
    have h1 : ((v.take 6).takeWhile isUpper).length ≤ (v.take 6).length :=
      (List.takeWhile_prefix _).length_le
    have h2 : (v.take 6).length ≤ v.length := by simp [List.length_take]
    have h3 := List.drop_eq_nil_iff.1 hd
    have h5 : (v.take 6).length = v.length := by omega
    have h6 : v.take 6 = v := by
      apply List.take_of_length_le
      simp only [List.length_take] at h5
      omega
    rw [h6] at hk
    have h8 : (v.takeWhile isUpper).length ≤ v.length := (List.takeWhile_prefix _).length_le
    have h7 : v.takeWhile isUpper = v :=
      (List.takeWhile_prefix _).eq_of_length (by omega)
    rw [List.takeWhile_eq_self_iff] at h7
    intro c hc
    exact isSpace_of_isUpper c (h7 c hc)

theorem parseZone_full (env : LocalZone) (year month day hour min sec nsec : Nat) (v : Str)
    (t : Time) (h : parseZone env year month day hour min sec nsec v = some t) :
    v ≠ [] ∧ ∀ c ∈ v, isSpace c = false := by
  unfold parseZone at h
  split at h
  · rename_i hu
    split at h
    · cases h
    · rename_i hdrop
      simp only [ne_eq, not_not] at hdrop
      rw [take_drop_nil_eq 3 v _ hu hdrop]
      decide
  · simp only [Option.bind_eq_some] at h
    obtain ⟨n, hn, h⟩ := h
    split at h
    · cases h
    · rename_i hdrop
      simp only [ne_eq, not_not] at hdrop
      exact parseTimeZone_full v n hn hdrop

/-- A value that `time.Parse` accepts under the header layout has no white
space at its start or end, so `strings.TrimSpace` leaves it as it is. -/
theorem trimSpace_of_parseHeader (env : LocalZone) (value : Str) (t : Time)
    (h : parseHeader env value = some t) : trimSpace value = value := by
  unfold parseHeader at h
  simp only [Option.bind_eq_some] at h
  obtain ⟨dv, h1, v1, h2, mv, h3, v2, h4, v3, h5, yv, h6, v4, h7, c, h8, v5, h9, hz⟩ := h
  obtain ⟨hne, hall⟩ := parseZone_full env _ _ _ _ _ _ _ v5 t hz
  obtain ⟨c0, hhead, hdig⟩ := getnum_head _ _ _ h1
  have hsuf : v5 <:+ value :=
    (skipSpace_suffix _ _ h9).trans ((parseClock_suffix _ _ h8).trans
      ((skipSpace_suffix _ _ h7).trans ((parseLongYear_suffix _ _ h6).trans
        ((skipSpace_suffix _ _ h5).trans ((skipLit_suffix _ _ _ h4).trans
          ((lookup_suffix _ _ _ h3).trans ((skipSpace_suffix _ _ h2).trans
            (getnum_suffix _ _ _ h1))))))))
  obtain ⟨pre, hpre⟩ := hsuf
  have hlast : value.getLast? = some (v5.getLast hne) := by
    rw [← hpre, List.getLast?_append_of_ne_nil _ hne, List.getLast?_eq_getLast _ hne]
  exact trimSpace_eq_self value c0 _ hhead hlast (isSpace_of_isDigit c0 hdig)
    (hall _ (List.getLast_mem hne))

theorem blockLoop_ok (env : LocalZone) (blocks : List Str) :
    ∀ lines : List (List Str),
      (∀ s ∈ blocks, s ≠ [] → parseHeader env (headerOf s) ≠ none) →
      blockLoop env lines blocks =
        Except.ok (lines ++ ((blocks.filter (fun s => s ≠ [])).map (blockRows env)).flatten) := by
  induction blocks with
  | nil => intro lines _; simp [blockLoop_nil]
  | cons b more ih =>
    intro lines h
    have hmore : ∀ s ∈ more, s ≠ [] → parseHeader env (headerOf s) ≠ none :=
      fun s hs => h s (List.mem_cons_of_mem _ hs)
    by_cases hb : b = []
    · subst hb
      rw [blockLoop_empty, ih lines hmore]
      simp
    · obtain ⟨date, hdate⟩ := Option.ne_none_iff_exists'.1 (h b (by simp) hb)
      have hrows : blockRows env b =
          (((split b ['\n']).tail).filter (fun line => 3 ≤ (fields line).length)).map
            (rowOfLine (formatTimeOfDay env date)) := by
        unfold blockRows; rw [hdate]
      rw [blockLoop_header_ok env lines b more date hb hdate, ih _ hmore, sampleLoop_eq]
      simp [hb, hrows]

/-- C2: for a log in which the first line of every non-empty block, trimmed as
`generateData` trims it, parses under the header layout, the parsing loops of
`generateData` end without error with the header line followed by exactly
`logRows`: block by block and line by line, one row for each line after the
block header whose `strings.Fields` has at least three tokens, made of the
header time as `HH:MM:SS`, token 0, token 1 and the other tokens joined by
single spaces; lines with fewer tokens give no row.  These lines are what
`generateData` writes.  A first line that parses as it stands is its own
trimmed form, so such headers are covered. -/
theorem parseLog_rows (env : LocalZone) (raw : Str)
    (h : ∀ s ∈ split raw delimiter, s ≠ [] → parseHeader env (headerOf s) ≠ none) :
    parseLog env raw = Except.ok (profileHeader :: logRows env raw) ∧
    (∀ files : Files, files.psLog = some raw → files.creatable = true →
      generateData env files =
        (none, { files with profile := some (writeAll (profileHeader :: logRows env raw)) })) ∧
    (∀ (s : Str) (t : Time), parseHeader env ((split s ['\n']).headD []) = some t →
      headerOf s = (split s ['\n']).headD []) := by
  have hp : parseLog env raw = Except.ok (profileHeader :: logRows env raw) := by
    rw [parseLog, blockLoop_ok env _ _ h]
    rfl
  refine ⟨hp, ?_, ?_⟩
  · intro files hlog hc
    simp only [generateData, hlog, hp, hc, if_true]
  · intro s t ht
    exact trimSpace_of_parseHeader env _ t ht

/-- Witness of C2: a log whose first header has a blank before it and whose
lines end in a carriage return and a line feed. -/
theorem parseLog_rows_witness :
    parseLog utcLocal paddedLog = Except.ok (profileHeader :: logRows utcLocal paddedLog) ∧
    logRows utcLocal paddedLog =
      [["10:00:00".toList, "5.0".toList, "2.0".toList, "myproc".toList],
       ["11:00:00".toList, "3.0".toList, "1.0".toList, "other proc".toList]] :=
  ⟨(parseLog_rows utcLocal paddedLog (by decide)).1, by decide⟩

/-! ## The CSV writer and reader -/

theorem normalize_of_no_cr (s : Str) (h : '\r' ∉ s) : normalize s = s := by
  induction s with
  | nil => rfl
  | cons c cs ih =>
    have hc : c ≠ '\r' := fun hc => h (by simp [hc])
    have hcs : '\r' ∉ cs := fun hcs => h (List.mem_cons_of_mem _ hcs)
    rw [normalize.eq_def]
    simp only [if_neg hc, ih hcs]

/-- Reading an unquoted field up to the comma that ends it. -/
theorem scan_unquoted_comma (cs : Str) (h : ∀ c ∈ cs, c ≠ '\n' ∧ c ≠ '"' ∧ c ≠ ',') :
    ∀ (done : List Str) (cur rest : Str),
      scan Mode.unquoted done cur (cs ++ ',' :: rest) =
        scan Mode.fieldStart (done ++ [cur ++ cs]) [] rest := by
  induction cs with
  | nil => intro done cur rest; simp [scan]
  | cons c cs ih =>
    intro done cur rest
    obtain ⟨h1, h2, h3⟩ := h c (by simp)
    rw [List.cons_append, scan, if_neg h1, if_neg h2, if_neg h3,
      ih (fun d hd => h d (List.mem_cons_of_mem _ hd))]
    simp

/-- Reading an unquoted field up to the line feed that ends its record. -/
theorem scan_unquoted_newline (cs : Str) (h : ∀ c ∈ cs, c ≠ '\n' ∧ c ≠ '"' ∧ c ≠ ',') :
    ∀ (done : List Str) (cur rest : Str),
      scan Mode.unquoted done cur (cs ++ '\n' :: rest) =
        Except.ok (done ++ [cur ++ cs]) :: scan Mode.recordStart [] [] rest := by
  induction cs with
  | nil => intro done cur rest; simp [scan]
  | cons c cs ih =>
    intro done cur rest
    obtain ⟨h1, h2, h3⟩ := h c (by simp)
    rw [List.cons_append, scan, if_neg h1, if_neg h2, if_neg h3,
      ih (fun d hd => h d (List.mem_cons_of_mem _ hd))]
    simp

/-- Reading the inside of a quoted field up to its closing quote. -/
theorem scan_quoted (f : Str) :
    ∀ (done : List Str) (cur rest : Str),
      scan Mode.quoted done cur (writeQuoted f ++ '"' :: rest) =
        scan Mode.quoteSeen done (cur ++ f) rest := by
  induction f with
  | nil => intro done cur rest; simp [writeQuoted, scan]
  | cons c cs ih =>
    intro done cur rest
    by_cases hc : c = '"'
    · subst hc
      simp only [writeQuoted, if_true, List.cons_append]
      rw [scan, if_pos rfl, scan, if_pos rfl, ih]
      simp
    · simp only [writeQuoted, if_neg hc, List.cons_append]
      rw [scan, if_neg hc, ih]
      simp

theorem fieldNeedsQuotes_false (f : Str) (h : fieldNeedsQuotes f = false) :
    ∀ c ∈ f, c ≠ '\n' ∧ c ≠ '"' ∧ c ≠ ',' := by
  intro c hc
  unfold fieldNeedsQuotes at h
  have hne : f ≠ [] := List.ne_nil_of_mem hc
  rw [if_neg hne] at h
  split at h
  · cases h
  · split at h
    · cases h
    · rename_i hany
      simp only [List.any_eq_true, Bool.or_eq_true, decide_eq_true_eq, not_exists, not_and,
        not_or] at hany
      obtain ⟨⟨⟨h1, _⟩, h3⟩, h4⟩ := hany c hc
      exact ⟨h1, h3, h4⟩

/-- Reading a written field that a comma follows, at the start of a record or
after a comma. -/
theorem scan_field_comma (f : Str) (done : List Str) (cur rest : Str) :
    scan Mode.fieldStart done cur (writeField f ++ ',' :: rest) =
      scan Mode.fieldStart (done ++ [f]) [] rest ∧
    scan Mode.recordStart done cur (writeField f ++ ',' :: rest) =
      scan Mode.fieldStart [f] [] rest := by
  unfold writeField
  cases hq : fieldNeedsQuotes f with
  | true =>
    simp only [if_true, List.cons_append, List.nil_append, List.append_assoc]
    constructor
    · rw [scan, if_neg (by decide), if_pos rfl, scan_quoted, scan, if_neg (by decide),
        if_pos rfl]
      simp
    · rw [scan, if_neg (by decide), if_pos rfl, scan_quoted, scan, if_neg (by decide),
        if_pos rfl]
      simp
  | false =>
    have hf := fieldNeedsQuotes_false f hq
    simp only [Bool.false_eq_true, if_false]
    cases f with
    | nil => constructor <;> simp [scan]
    | cons c cs =>
      obtain ⟨h1, h2, h3⟩ := hf c (by simp)
      have hcs : ∀ d ∈ cs, d ≠ '\n' ∧ d ≠ '"' ∧ d ≠ ',' :=
        fun d hd => hf d (List.mem_cons_of_mem _ hd)
      constructor
      · rw [List.cons_append, scan, if_neg h1, if_neg h2, if_neg h3,
          scan_unquoted_comma cs hcs]
        simp
      · rw [List.cons_append, scan, if_neg h1, if_neg h2, if_neg h3,
          scan_unquoted_comma cs hcs]
        simp

/-- Reading a written field that ends its record, after a comma. -/
theorem scan_field_newline (f : Str) (done : List Str) (cur rest : Str) :
    scan Mode.fieldStart done cur (writeField f ++ '\n' :: rest) =
      Except.ok (done ++ [f]) :: scan Mode.recordStart [] [] rest := by
  unfold writeField
  cases hq : fieldNeedsQuotes f with
  | true =>
    simp only [if_true, List.cons_append, List.nil_append, List.append_assoc]
    rw [scan, if_neg (by decide), if_pos rfl, scan_quoted, scan, if_neg (by decide),
      if_neg (by decide), if_pos rfl]
    simp
  | false =>
    have hf := fieldNeedsQuotes_false f hq
    simp only [Bool.false_eq_true, if_false]
    cases f with
    | nil => simp [scan]
    | cons c cs =>
      obtain ⟨h1, h2, h3⟩ := hf c (by simp)
      have hcs : ∀ d ∈ cs, d ≠ '\n' ∧ d ≠ '"' ∧ d ≠ ',' :=
        fun d hd => hf d (List.mem_cons_of_mem _ hd)
      rw [List.cons_append, scan, if_neg h1, if_neg h2, if_neg h3,
        scan_unquoted_newline cs hcs]
      simp

/-- Reading the written fields of a record after its first comma. -/
theorem scan_fields (fs : List Str) :
    ∀ (f : Str) (done : List Str) (cur rest : Str),
      scan Mode.fieldStart done cur (join ((f :: fs).map writeField) [','] ++ '\n' :: rest) =
        Except.ok (done ++ f :: fs) :: scan Mode.recordStart [] [] rest := by
  induction fs with
  | nil =>
    intro f done cur rest
    simp only [List.map_cons, List.map_nil, join]
    rw [scan_field_newline]
  | cons g gs ih =>
    intro f done cur rest
    simp only [List.map_cons, join, List.append_assoc, List.singleton_append, List.cons_append]
    rw [(scan_field_comma f done cur _).1]
    have := ih g (done ++ [f]) [] rest
    simpa using this

/-- Reading one written record of at least two fields. -/
theorem scan_record (f g : Str) (gs : List Str) (rest : Str) :
    scan Mode.recordStart [] [] (writeRecord (f :: g :: gs) ++ rest) =
      Except.ok (f :: g :: gs) :: scan Mode.recordStart [] [] rest := by
  simp only [writeRecord, List.map_cons, join, List.append_assoc, List.singleton_append,
    List.cons_append]
  rw [(scan_field_comma f [] [] _).2]
  have := scan_fields gs g [f] [] rest
  simpa using this

/-- The record parser reads back the records that `WriteAll` wrote, when each
has at least two fields. -/
theorem scan_writeAll (records : List (List Str)) (h : ∀ r ∈ records, 2 ≤ r.length) :
    scan Mode.recordStart [] [] (writeAll records) = records.map Except.ok := by
  induction records with
  | nil => simp [writeAll, scan]
  | cons r rs ih =>
    have hr := h r (by simp)
    match r, hr with
    | f :: g :: gs, _ =>
      rw [writeAll, scan_record, ih (fun x hx => h x (List.mem_cons_of_mem _ hx))]
      simp

theorem not_mem_writeQuoted (c : Char) (hc : c ≠ '"') (f : Str) (h : c ∉ f) :
    c ∉ writeQuoted f := by
  induction f with
  | nil => simp [writeQuoted]
  | cons d ds ih =>
    have hd : c ≠ d := fun e => h (by simp [e])
    have hds : c ∉ ds := fun e => h (List.mem_cons_of_mem _ e)
    unfold writeQuoted
    split <;> simp [hc, hd, ih hds]

theorem not_mem_writeField (c : Char) (hc : c ≠ '"') (f : Str) (h : c ∉ f) :
    c ∉ writeField f := by
  unfold writeField
  split
  · simp [hc, not_mem_writeQuoted c hc f h]
  · exact h

theorem not_mem_join (c : Char) (sep : Str) (hc : c ∉ sep) (xs : List Str)
    (h : ∀ x ∈ xs, c ∉ x) : c ∉ join xs sep := by
  induction xs with
  | nil => simp [join]
  | cons x rest ih =>
    cases rest with
    | nil => simpa [join] using h x (by simp)
    | cons y ys =>
      have := ih (fun z hz => h z (List.mem_cons_of_mem _ hz))
      simp only [join, List.mem_append, not_or]
      exact ⟨⟨h x (by simp), hc⟩, this⟩

theorem not_mem_writeAll (c : Char) (h1 : c ≠ '"') (h2 : c ≠ ',') (h3 : c ≠ '\n')
    (records : List (List Str)) (h : ∀ r ∈ records, ∀ f ∈ r, c ∉ f) :
    c ∉ writeAll records := by
  induction records with
  | nil => simp [writeAll]
  | cons r rs ih =>
    have hr : c ∉ writeRecord r := by
      unfold writeRecord
      simp only [List.mem_append, List.mem_singleton, not_or]
      refine ⟨not_mem_join c _ (by simpa using h2) _ ?_, h3⟩
      intro x hx
      obtain ⟨f, hf, rfl⟩ := List.mem_map.1 hx
      exact not_mem_writeField c h1 f (h r (by simp) f hf)
    simp only [writeAll, List.mem_append, not_or]
    exact ⟨hr, ih (fun x hx => h x (List.mem_cons_of_mem _ hx))⟩

/-- The reader of `csv.NewReader` reads back every record that `WriteAll` wrote,
when the records all have the same number of fields, at least two, and no field
holds a carriage return. -/
theorem newReader_writeAll (hdr : List Str) (data : List (List Str))
    (hlen : 2 ≤ hdr.length) (hdata : ∀ r ∈ data, r.length = hdr.length)
    (hcr : ∀ r ∈ hdr :: data, ∀ f ∈ r, '\r' ∉ f) :
    newReader (writeAll (hdr :: data)) = Except.ok hdr :: data.map Except.ok := by
  apply newReader_ok _ _ _ _ (by omega) hdata
  rw [parseRecords, normalize_of_no_cr _
    (not_mem_writeAll '\r' (by decide) (by decide) (by decide) _ hcr)]
  apply scan_writeAll
  intro r hr
  rcases List.mem_cons.1 hr with h | h
  · rw [h]; exact hlen
  · rw [hdata r h]; exact hlen

/-! ## The clock text -/

theorem digitChar_facts :
    ∀ k < 10, isDigit (Char.ofNat ('0'.toNat + k)) = true ∧
      digitVal (Char.ofNat ('0'.toNat + k)) = k ∧ Char.ofNat ('0'.toNat + k) ≠ '\r' := by
  decide

theorem getnum_pad2 (fixed : Bool) (n : Nat) (hn : n < 100) (rest : Str) :
    getnum fixed (pad2 n ++ rest) = some (n, rest) := by
  obtain ⟨a1, a2, -⟩ := digitChar_facts (n / 10 % 10) (Nat.mod_lt _ (by omega))
  obtain ⟨b1, b2, -⟩ := digitChar_facts (n % 10) (Nat.mod_lt _ (by omega))
  simp only [pad2, digitChar, List.cons_append, List.nil_append, getnum, a1, b1, if_true, a2, b2]
  congr 2
  omega

theorem parseTimeOfDay_pad (h m s : Nat) (hh : h < 24) (hm : m < 60) (hs : s < 60) :
    parseTimeOfDay (pad2 h ++ [':'] ++ pad2 m ++ [':'] ++ pad2 s) =
      some (dateUTC 0 1 1 h m s 0) := by
  have e : pad2 h ++ [':'] ++ pad2 m ++ [':'] ++ pad2 s =
      pad2 h ++ (':' :: (pad2 m ++ (':' :: (pad2 s ++ [])))) := by simp
  have h24 : ¬ 24 ≤ h := by omega
  have m60 : ¬ 60 ≤ m := by omega
  have s60 : ¬ 60 ≤ s := by omega
  rw [e]
  simp only [parseTimeOfDay, parseClock, getnum_pad2 false h (by omega),
    getnum_pad2 true m (by omega), getnum_pad2 true s (by omega), Option.some_bind, skipLit,
    if_true, h24, m60, s60, if_false, fraction, ne_eq, not_true_eq_false]

theorem formatTimeOfDay_dateUTC (env : LocalZone) (h m s : Nat) (hh : h < 24) (hm : m < 60)
    (hs : s < 60) :
    formatTimeOfDay env (dateUTC 0 1 1 h m s 0) =
      pad2 h ++ [':'] ++ pad2 m ++ [':'] ++ pad2 s := by
  have hd : daysBefore 0 1 = 0 := by decide
  have hsec : (dateUTC 0 1 1 h m s 0).secOfDay env = h * 3600 + m * 60 + s := by
    simp only [Time.secOfDay, Time.offset, dateUTC, hd]
    omega
  simp only [formatTimeOfDay, hsec]
  have e1 : (h * 3600 + m * 60 + s) / 3600 = h := by omega
  have e2 : (h * 3600 + m * 60 + s) % 3600 / 60 = m := by omega
  have e3 : (h * 3600 + m * 60 + s) % 60 = s := by omega
  rw [e1, e2, e3]

theorem not_mem_pad2 (n : Nat) : '\r' ∉ pad2 n := by
  obtain ⟨-, -, a3⟩ := digitChar_facts (n / 10 % 10) (Nat.mod_lt _ (by omega))
  obtain ⟨-, -, b3⟩ := digitChar_facts (n % 10) (Nat.mod_lt _ (by omega))
  simp only [pad2, digitChar, List.mem_cons, List.mem_singleton, List.not_mem_nil, or_false,
    not_or]
  exact ⟨fun e => a3 e.symm, fun e => b3 e.symm⟩

/-! ## Round trip through the stored file -/

theorem decodeOk_line (fl : FloatOps F) (env : LocalZone) (s : Sample F)
    (h : s.WellFormed fl) : decodeOk fl (s.line env) = some s.row := by
  obtain ⟨⟨hh, m, sec, h1, h2, h3, hdate⟩, hcpu, hmem, -⟩ := h
  have ht : parseTimeOfDay (formatTimeOfDay env s.row.Date) = some s.row.Date := by
    rw [hdate, formatTimeOfDay_dateUTC env hh m sec h1 h2 h3, parseTimeOfDay_pad hh m sec h1 h2 h3]
  rw [decodeOk_eq_some, decodeRow_long fl _ (by simp [Sample.line])]
  simp [Sample.line, ht, hcpu, hmem]

theorem decodedRows_lines (fl : FloatOps F) (env : LocalZone) (samples : List (Sample F))
    (h : ∀ s ∈ samples, s.WellFormed fl) :
    decodedRows fl (samples.map (Sample.line env)) = samples.map (fun s => s.row) := by
  induction samples with
  | nil => rfl
  | cons s rest ih =>
    rw [List.map_cons, decodedRows_cons, decodeOk_line fl env s (h s (by simp)),
      ih (fun x hx => h x (List.mem_cons_of_mem _ hx))]
    rfl

theorem not_mem_line (fl : FloatOps F) (env : LocalZone)
    (hfl : ∀ t v, fl.parseFloat t = some v → '\r' ∉ t) (s : Sample F)
    (h : s.WellFormed fl) : ∀ f ∈ s.line env, '\r' ∉ f := by
  obtain ⟨⟨hh, m, sec, h1, h2, h3, hdate⟩, hcpu, hmem, tokens, -, htok, hproc⟩ := h
  intro f hf
  simp only [Sample.line, List.mem_cons, List.mem_singleton, List.not_mem_nil, or_false] at hf
  rcases hf with rfl | rfl | rfl | rfl
  · rw [hdate, formatTimeOfDay_dateUTC env hh m sec h1 h2 h3]
    simp only [List.mem_append, List.mem_singleton, not_or]
    exact ⟨⟨⟨⟨not_mem_pad2 _, by decide⟩, not_mem_pad2 _⟩, by decide⟩, not_mem_pad2 _⟩
  · exact hfl _ _ hcpu
  · exact hfl _ _ hmem
  · rw [hproc]
    apply not_mem_join _ _ (by decide)
    intro t ht hmem
    have := htok t ht _ hmem
    revert this
    decide

/-- C1: round trip.  For every sequence of well-formed Rows, the file that the
write path of `generateData` makes of the header `time,cpu,mem,proc` and one
line of four fields per Row is read back by `readData` without error as the
Table of these Rows: same length, and the date, cpu, mem and process at each
index are those of the Row at that index.  `strconv.ParseFloat` is taken to
accept no text that holds a carriage return. -/
theorem readData_writeAll (fl : FloatOps F) (env : LocalZone)
    (hfl : ∀ t v, fl.parseFloat t = some v → '\r' ∉ t)
    (samples : List (Sample F)) (hwf : ∀ s ∈ samples, s.WellFormed fl) :
    readData fl (some (writeAll (profileHeader :: samples.map (Sample.line env)))) =
      (Table.ofRows (samples.map (fun s => s.row)), none) := by
  have hr : newReader (writeAll (profileHeader :: samples.map (Sample.line env))) =
      Except.ok profileHeader :: (samples.map (Sample.line env)).map Except.ok := by
    apply newReader_writeAll
    · decide
    · intro r hr
      obtain ⟨s, -, rfl⟩ := List.mem_map.1 hr
      rfl
    · intro r hr
      rcases List.mem_cons.1 hr with h | h
      · subst h; decide
      · obtain ⟨s, hs, rfl⟩ := List.mem_map.1 h
        exact not_mem_line fl env hfl s (hwf s hs)
  rw [readData_eq fl _ _ _ hr, okPrefix_map_ok, decodedRows_lines fl env samples hwf]

theorem decimalFloat_no_cr (t : Str) (v : Nat × Nat)
    (h : decimalFloat.parseFloat t = some v) : '\r' ∉ t := by
  intro hmem
  rw [← List.takeWhile_append_dropWhile isDigit t] at hmem
  rcases List.mem_append.1 hmem with h1 | h1
  · have := List.mem_takeWhile_imp h1
    revert this; decide
  · simp only [decimalFloat] at h
    split at h
    · rename_i h0
      rw [h0] at h1
      simp at h1
    · rename_i c fp h0
      rw [h0] at h1
      split at h
      · rename_i hc
        simp only [Bool.and_eq_true, decide_eq_true_eq, List.all_eq_true] at hc
        rcases List.mem_cons.1 h1 with h2 | h2
        · rw [← h2] at hc
          exact absurd hc.1.1.1 (by decide)
        · have := hc.2 _ h2
          revert this; decide
      · cases h

/-- Witness of C1: the two Rows of the worked example, written and read back. -/
theorem readData_writeAll_witness :
    readData decimalFloat
      (some (writeAll (profileHeader :: exampleSamples.map (Sample.line utcLocal)))) =
      (⟨[dateUTC 0 1 1 10 0 0 0, dateUTC 0 1 1 11 0 0 0], [(50, 1), (30, 1)],
        [(20, 1), (10, 1)], ["myproc".toList, "other proc".toList]⟩, none) :=
  readData_writeAll decimalFloat utcLocal decimalFloat_no_cr exampleSamples (by
    intro s hs
    simp only [exampleSamples, List.mem_cons, List.mem_singleton, List.not_mem_nil,
      or_false] at hs
    rcases hs with rfl | rfl
    · exact ⟨⟨10, 0, 0, by decide, by decide, by decide, rfl⟩, by decide, by decide,
        ["myproc".toList], by decide, by decide, by decide⟩
    · exact ⟨⟨11, 0, 0, by decide, by decide, by decide, rfl⟩, by decide, by decide,
        ["other".toList, "proc".toList], by decide, by decide, by decide⟩)

/-! ## The chart document -/

/-- C11: for every Table, the value `tableJSON` hands to the JSON encoder is a
map with exactly the two keys `data` and `layout`; `data` is a slice of exactly
one map, the trace, whose `x` is the date column and whose `y` is the cpu column
of the Table, entry by entry in the same order, and whose other members are
name `cpu`, mode `line` and type `scatter`. -/
theorem tableJSON_document (encode : Value F → Option Error × Str) (table : Table F) :
    tableJSON encode table =
      encode (reply (dateUTC 0 1 1 10 58 26 0) (dateUTC 0 1 1 18 14 58 0) table) ∧
    (reply (dateUTC 0 1 1 10 58 26 0) (dateUTC 0 1 1 18 14 58 0) table).keys =
      ["data".toList, "layout".toList] ∧
    (reply (dateUTC 0 1 1 10 58 26 0) (dateUTC 0 1 1 18 14 58 0) table).member "data".toList =
      some (Value.slice [Value.map [
        ("x".toList, Value.slice (table.Date.map Value.time)),
        ("y".toList, Value.slice (table.CpuPct.map Value.float)),
        ("name".toList, Value.str "cpu".toList),
        ("mode".toList, Value.str "line".toList),
        ("type".toList, Value.str "scatter".toList)]]) := by
  refine ⟨?_, rfl, rfl⟩
  simp only [tableJSON, parseTimeOfDay_min, parseTimeOfDay_max]

/-- C19: two Tables with the same date column and the same cpu column make
`tableJSON` return the same error and write the same bytes, whatever their mem
and process columns hold and whatever the encoder does. -/
theorem tableJSON_date_cpu_only (encode : Value F → Option Error × Str) (t1 t2 : Table F)
    (hd : t1.Date = t2.Date) (hc : t1.CpuPct = t2.CpuPct) :
    tableJSON encode t1 = tableJSON encode t2 := by
  simp only [tableJSON, reply, hd, hc]

/-- Witness of C19: two Tables that differ in their mem and process columns. -/
theorem tableJSON_date_cpu_only_witness :
    tableJSON sampleEncode
        ⟨[dateUTC 0 1 1 10 0 0 0], [(50, 1)], [(20, 1)], ["myproc".toList]⟩ =
      tableJSON sampleEncode
        ⟨[dateUTC 0 1 1 10 0 0 0], [(50, 1)], [(7, 0), (8, 0)], []⟩ :=
  tableJSON_date_cpu_only sampleEncode _ _ rfl rfl

/-! ## dataHandler -/

/-- C12, as amended: whenever `readData` returns an error, `dataHandler` answers
with status 500 and the body `can't fetch data` followed by a line feed, the
same for every encoder: `tableJSON` is not called and no chart JSON is
written. -/
theorem dataHandler_readData_error (fl : FloatOps F) (profile : Option Str)
    (h : (readData fl profile).2 ≠ none) :
    ∀ encode : Value F → Option Error × Str,
      dataHandler fl encode profile = ⟨500, "can't fetch data\n".toList⟩ := by
  intro encode
  unfold dataHandler
  rcases hr : readData fl profile with ⟨table, _ | err⟩
  · rw [hr] at h; exact absurd rfl h
  · rfl

/-- Witness of C12: the stored file is missing. -/
theorem dataHandler_readData_error_witness :
    dataHandler decimalFloat sampleEncode none = ⟨500, "can't fetch data\n".toList⟩ :=
  dataHandler_readData_error decimalFloat none (by decide) sampleEncode

/-- Counterexample to C12 as stated: with the stored file missing `readData`
returns an error and the status is 500, but the body is not `can't fetch data`:
it has one more character, the line feed. -/
theorem dataHandler_missing_file :
    (readData decimalFloat none).2 ≠ none ∧
    (dataHandler decimalFloat sampleEncode none).status = 500 ∧
    (dataHandler decimalFloat sampleEncode none).body ≠ "can't fetch data".toList ∧
    (dataHandler decimalFloat sampleEncode none).body = "can't fetch data".toList ++ ['\n'] := by
  decide

/-! ## readData: the header and the loop -/

theorem newReader_error_tail (content : Str) (e : CsvError)
    (rest : List (Except CsvError (List Str)))
    (h : newReader content = Except.error e :: rest) : rest = [] := by
  unfold newReader csvReads at h
  rcases hp : parseRecords content with _ | ⟨r, more⟩
  · rw [hp] at h; simp [checkFieldCount] at h
  · rw [hp] at h
    cases r with
    | error e2 =>
      simp only [checkFieldCount, List.cons.injEq] at h
      exact h.2.symm
    | ok record =>
      simp [checkFieldCount] at h

/-- C14: when the first `Read`, of the header line, returns an error, `readData`
returns that error with the empty Table; for an empty file the error is
`io.EOF`.  What follows the header plays no part: every file whose header read
gives the same error gives the same result. -/
theorem readData_header_unreadable (fl : FloatOps F) (content : Str) (err : Error)
    (h : (read (newReader content)).2.1 = some err) :
    readData fl (some content) = (Table.empty, some err) ∧
    readData fl (some []) = (Table.empty, some Error.eof) ∧
    ∀ content2 : Str, (read (newReader content2)).2.1 = some err →
      readData fl (some content2) = readData fl (some content) := by
  have key : ∀ c : Str, (read (newReader c)).2.1 = some err →
      readData fl (some c) = (Table.empty, some err) := by
    intro c hc
    simp only [readData]
    rcases hr : read (newReader c) with ⟨rec, e, rd⟩
    rw [hr] at hc
    simp only at hc
    subst hc
    rfl
  refine ⟨key content h, rfl, ?_⟩
  intro content2 h2
  rw [key content h, key content2 h2]

/-- Witness of C14: a file whose header line has a quote inside an unquoted
field, followed by a line that would decode. -/
theorem readData_header_unreadable_witness :
    readData decimalFloat (some "ti\"me,cpu,mem,proc\n10:00:00,1,2,a\n".toList) =
      (Table.empty, some (Error.csvParse CsvError.bareQuote)) :=
  (readData_header_unreadable decimalFloat "ti\"me,cpu,mem,proc\n10:00:00,1,2,a\n".toList
    (Error.csvParse CsvError.bareQuote) (by rfl)).1

theorem okPrefix_append_error (pre : List (List Str)) (e : CsvError)
    (post : List (Except CsvError (List Str))) :
    okPrefix (pre.map Except.ok ++ Except.error e :: post) = pre := by
  induction pre with
  | nil => rfl
  | cons r more ih => simp [okPrefix, ih]

/-- C16: once the header has been read, `readData` returns a nil error, with the
Table of the Rows decoded from the records read before the first error of the
reader: when the reader fails on a line the Table holds the rows of the lines
before it and the error is dropped.  In the loop, a non-nil `err` ends the loop
before the body runs, and with a nil `err` the body goes on to decode the
record: the test for `io.EOF` in the body never succeeds. -/
theorem readData_nil_error (fl : FloatOps F) (content : Str) (hdr : List Str)
    (rest : List (Except CsvError (List Str)))
    (h : newReader content = Except.ok hdr :: rest) :
    readData fl (some content) = (Table.ofRows (decodedRows fl (okPrefix rest)), none) ∧
    (∀ (pre : List (List Str)) (e : CsvError) (post : List (Except CsvError (List Str))),
      rest = pre.map Except.ok ++ Except.error e :: post →
      readData fl (some content) = (Table.ofRows (decodedRows fl pre), none)) ∧
    (∀ (table : Table F) (rec : List Str) (e : Error)
      (reader : List (Except CsvError (List Str))),
      readLoop fl table rec (some e) reader = (table, none)) ∧
    (∀ (table : Table F) (rec record : List Str) (more : List (Except CsvError (List Str))),
      readLoop fl table rec none (Except.ok record :: more) =
        readLoop fl (loopBody fl table rec) record none more) ∧
    (∀ (table : Table F) (rec : List Str) (e : CsvError)
      (more : List (Except CsvError (List Str))),
      readLoop fl table rec none (Except.error e :: more) = (loopBody fl table rec, none)) ∧
    (∀ (table : Table F) (rec : List Str),
      readLoop fl table rec none [] = (loopBody fl table rec, none)) := by
  refine ⟨readData_eq fl content hdr rest h, ?_, ?_, ?_, ?_, ?_⟩
  · intro pre e post hrest
    rw [readData_eq fl content hdr rest h, hrest, okPrefix_append_error]
  · intro table rec e reader
    cases reader with
    | nil => simp [readLoop]
    | cons r more => cases r <;> simp [readLoop]
  · intro table rec record more
    rw [readLoop, if_neg (by simp), if_neg (by simp)]
  · intro table rec e more
    simp [readLoop]
  · intro table rec
    simp [readLoop]

/-- Witness of C16: in `badQuoteFile` the second data line makes the reader
fail; the Table holds the first data line only and the error is nil. -/
theorem readData_nil_error_witness :
    readData decimalFloat (some badQuoteFile) =
      (⟨[dateUTC 0 1 1 10 0 0 0], [(1, 0)], [(2, 0)], ["a".toList]⟩, none) :=
  ((readData_nil_error decimalFloat badQuoteFile profileHeader
    [Except.ok ["10:00:00".toList, "1".toList, "2".toList, "a".toList],
     Except.error CsvError.bareQuote] (by rfl)).1).trans (by decide)

theorem length_decodedRows (fl : FloatOps F) (records : List (List Str)) :
    (decodedRows fl records).length =
      records.countP (fun r => (decodeRow fl r).2.isNone) := by
  induction records with
  | nil => rfl
  | cons r rs ih =>
    rw [decodedRows_cons, List.length_append, ih, List.countP_cons]
    unfold decodeOk
    rcases hd : decodeRow fl r with ⟨row, _ | e⟩ <;> simp
    omega

/-- C17: for a file that holds the header line only, `readData` returns the
empty Table and a nil error; the empty record of the first iteration gets the
length error from `decodeRow` and leaves the table as it is; and for every
file the length of the Table is the number of records read after the header,
before the first reader error, that `decodeRow` accepts. -/
theorem readData_length (fl : FloatOps F) (content : Str) :
    (∀ hdr : List Str, newReader content = [Except.ok hdr] →
      readData fl (some content) = (Table.empty, none)) ∧
    decodeRow fl [] = (Row.zero fl, some Error.errRecNotGood) ∧
    (∀ table : Table F, loopBody fl table [] = table) ∧
    (readData fl (some content)).1.Date.length =
      (okPrefix (newReader content).tail).countP (fun r => (decodeRow fl r).2.isNone) := by
  refine ⟨?_, by simp [decodeRow], ?_, ?_⟩
  · intro hdr h
    rw [readData_eq fl content hdr [] h]
    rfl
  · intro table
    simp [loopBody, decodeRow]
  · rw [← length_decodedRows]
    rcases hr : newReader content with _ | ⟨r, rest⟩
    · simp [readData, hr, read, Table.empty, okPrefix, decodedRows]
    · cases r with
      | error e =>
        have := newReader_error_tail content e rest hr
        subst this
        simp [readData, hr, read, Table.empty, okPrefix, decodedRows]
      | ok hdr =>
        rw [readData_eq fl content hdr rest hr]
        simp [Table.ofRows]

/-- Witness of C17: the header-only file. -/
theorem readData_length_witness :
    readData decimalFloat (some headerOnlyFile) = (Table.empty, none) :=
  (readData_length decimalFloat headerOnlyFile).1 profileHeader (by rfl)

/-! ## From the log to the Table -/

theorem fieldsAux_no_space (input : Str) :
    ∀ cur : Str, (∀ c ∈ cur, isSpace c = false) →
      ∀ tok ∈ fieldsAux cur input, ∀ c ∈ tok, isSpace c = false := by
  induction input with
  | nil =>
    intro cur hcur tok htok
    unfold fieldsAux at htok
    split at htok
    · simp at htok
    · simp only [List.mem_singleton] at htok
      subst htok
      exact hcur
  | cons d ds ih =>
    intro cur hcur tok htok
    rw [fieldsAux] at htok
    split at htok
    · split at htok
      · exact ih [] (by simp) tok htok
      · rcases List.mem_cons.1 htok with h1 | h1
        · subst h1; exact hcur
        · exact ih [] (by simp) tok h1
    · rename_i hd
      refine ih (cur ++ [d]) ?_ tok htok
      intro c hc
      rcases List.mem_append.1 hc with h1 | h1
      · exact hcur c h1
      · simp only [List.mem_singleton] at h1
        subst h1
        simpa using hd

theorem fields_no_cr (line : Str) : ∀ tok ∈ fields line, '\r' ∉ tok := by
  intro tok htok hmem
  have := fieldsAux_no_space line [] (by simp) tok htok _ hmem
  revert this
  decide

theorem getD_no_cr (toks : List Str) (h : ∀ tok ∈ toks, '\r' ∉ tok) (i : Nat) :
    '\r' ∉ toks.getD i [] := by
  rw [List.getD_eq_getElem?_getD]
  cases hi : toks[i]? with
  | none => simp
  | some tok => simpa using h tok (List.getElem?_mem hi)

theorem secOfDay_lt (env : LocalZone) (t : Time) : t.secOfDay env < 86400 := by
  unfold Time.secOfDay
  omega

theorem formatTimeOfDay_eq (env : LocalZone) (t : Time) :
    formatTimeOfDay env t =
      pad2 (t.secOfDay env / 3600) ++ [':'] ++ pad2 (t.secOfDay env % 3600 / 60) ++ [':'] ++
        pad2 (t.secOfDay env % 60) := rfl

/-- The text `Format(dateOutFmt)` writes always parses back, to the clock of the
time. -/
theorem parseTimeOfDay_format (env : LocalZone) (t : Time) :
    parseTimeOfDay (formatTimeOfDay env t) = some (clockOf env t) := by
  have := secOfDay_lt env t
  rw [formatTimeOfDay_eq, parseTimeOfDay_pad _ _ _ (by omega) (by omega) (by omega)]
  rfl

theorem formatTimeOfDay_no_cr (env : LocalZone) (t : Time) : '\r' ∉ formatTimeOfDay env t := by
  rw [formatTimeOfDay_eq]
  simp only [List.mem_append, List.mem_singleton, not_or]
  exact ⟨⟨⟨⟨not_mem_pad2 _, by decide⟩, not_mem_pad2 _⟩, by decide⟩, not_mem_pad2 _⟩

theorem rowOfLine_no_cr (env : LocalZone) (t : Time) (line : Str) :
    ∀ f ∈ rowOfLine (formatTimeOfDay env t) line, '\r' ∉ f := by
  intro f hf
  simp only [rowOfLine, List.mem_cons, List.mem_singleton, List.not_mem_nil, or_false] at hf
  rcases hf with rfl | rfl | rfl | rfl
  · exact formatTimeOfDay_no_cr env t
  · exact getD_no_cr _ (fields_no_cr line) 0
  · exact getD_no_cr _ (fields_no_cr line) 1
  · apply not_mem_join _ _ (by decide)
    intro tok htok
    exact fields_no_cr line tok (List.mem_of_mem_drop htok)

theorem mem_logRows (env : LocalZone) (raw : Str) (r : List Str) (h : r ∈ logRows env raw) :
    ∃ (t : Time) (line : Str), r = rowOfLine (formatTimeOfDay env t) line := by
  simp only [logRows, List.mem_flatten, List.mem_map, List.mem_filter] at h
  obtain ⟨rows, ⟨s, -, rfl⟩, hr⟩ := h
  unfold blockRows at hr
  split at hr
  · simp at hr
  · rename_i date _
    obtain ⟨line, -, rfl⟩ := List.mem_map.1 hr
    exact ⟨date, line, rfl⟩

theorem decodeOk_rowOfLine (fl : FloatOps F) (env : LocalZone) (t : Time) (line : Str) :
    decodeOk fl (rowOfLine (formatTimeOfDay env t) line) = keptRow fl (clockOf env t) line := by
  unfold decodeOk keptRow
  rw [decodeRow_long fl _ (by simp [rowOfLine])]
  simp only [rowOfLine, List.getD_cons_zero, List.getD_cons_succ, parseTimeOfDay_format]
  cases fl.parseFloat ((fields line).getD 0 []) <;>
    cases fl.parseFloat ((fields line).getD 1 []) <;> rfl

theorem decodedRows_append (fl : FloatOps F) (xs ys : List (List Str)) :
    decodedRows fl (xs ++ ys) = decodedRows fl xs ++ decodedRows fl ys := by
  simp [decodedRows, List.filterMap_append]

theorem decodedRows_blockRows (fl : FloatOps F) (env : LocalZone) (s : Str) :
    decodedRows fl (blockRows env s) = blockKept fl env s := by
  unfold blockRows blockKept
  cases parseHeader env (headerOf s) with
  | none => rfl
  | some date =>
    simp only [decodedRows, List.filterMap_map]
    congr 1
    funext line
    exact decodeOk_rowOfLine fl env date line

theorem decodedRows_logRows (fl : FloatOps F) (env : LocalZone) (raw : Str) :
    decodedRows fl (logRows env raw) = logKept fl env raw := by
  unfold logRows logKept
  induction (split raw delimiter).filter (fun s => s ≠ []) with
  | nil => rfl
  | cons b more ih =>
    simp only [List.map_cons, List.flatten_cons, decodedRows_append, ih,
      decodedRows_blockRows]

theorem generateData_profile (env : LocalZone) (raw : Str) (files : Files)
    (h : ∀ s ∈ split raw delimiter, s ≠ [] → parseHeader env (headerOf s) ≠ none)
    (hlog : files.psLog = some raw) (hc : files.creatable = true) :
    generateData env files =
      (none, { files with profile := some (writeAll (profileHeader :: logRows env raw)) }) := by
  have hp : parseLog env raw = Except.ok (profileHeader :: logRows env raw) := by
    rw [parseLog, blockLoop_ok env _ _ h]
    rfl
  simp only [generateData, hlog, hp, hc, if_true]

/-- C18: for a log in which the first line of every non-empty block, trimmed as
`generateData` trims it, parses as a header, the Table that `readData` returns
after `generateData` wrote the file holds, with a nil error, exactly `logKept`:
in log order, the rows of the sample lines with at least three tokens whose first two tokens both parse as floats;
the other sample lines with three tokens are in the file and not in the
Table. -/
theorem readData_generateData (fl : FloatOps F) (env : LocalZone) (raw : Str) (files : Files)
    (h : ∀ s ∈ split raw delimiter, s ≠ [] → parseHeader env (headerOf s) ≠ none)
    (hlog : files.psLog = some raw) (hc : files.creatable = true) :
    (generateData env files).2.profile =
      some (writeAll (profileHeader :: logRows env raw)) ∧
    readData fl (generateData env files).2.profile =
      (Table.ofRows (logKept fl env raw), none) := by
  rw [generateData_profile env raw files h hlog hc]
  refine ⟨rfl, ?_⟩
  have hr : newReader (writeAll (profileHeader :: logRows env raw)) =
      Except.ok profileHeader :: (logRows env raw).map Except.ok := by
    apply newReader_writeAll
    · decide
    · intro r hr
      obtain ⟨t, line, rfl⟩ := mem_logRows env raw r hr
      rfl
    · intro r hr
      rcases List.mem_cons.1 hr with h1 | h1
      · subst h1; decide
      · obtain ⟨t, line, rfl⟩ := mem_logRows env raw r h1
        exact rowOfLine_no_cr env t line
  show readData fl (some (writeAll (profileHeader :: logRows env raw))) = _
  rw [readData_eq fl _ _ _ hr, okPrefix_map_ok, decodedRows_logRows]

/-- Witness of C18: in `titlesLog` the line `%CPU %MEM ARGS` has three tokens;
it is written to the file as a row and is not in the Table read back.  In
`paddedLog` the header lines begin with a blank and the lines end with a
carriage return; both samples are in the Table. -/
theorem readData_generateData_witness :
    (generateData utcLocal ⟨some titlesLog, none, true⟩).2.profile =
      some "time,cpu,mem,proc\n10:00:00,%CPU,%MEM,ARGS\n10:00:00,5.0,2.0,myproc\n".toList ∧
    readData decimalFloat (generateData utcLocal ⟨some titlesLog, none, true⟩).2.profile =
      (⟨[dateUTC 0 1 1 10 0 0 0], [(50, 1)], [(20, 1)], ["myproc".toList]⟩, none) ∧
    readData decimalFloat (generateData utcLocal ⟨some paddedLog, none, true⟩).2.profile =
      (⟨[dateUTC 0 1 1 10 0 0 0, dateUTC 0 1 1 11 0 0 0], [(50, 1), (30, 1)],
        [(20, 1), (10, 1)], ["myproc".toList, "other proc".toList]⟩, none) :=
  ⟨((readData_generateData decimalFloat utcLocal titlesLog ⟨some titlesLog, none, true⟩
      (by decide) rfl rfl).1).trans (by decide),
   ((readData_generateData decimalFloat utcLocal titlesLog ⟨some titlesLog, none, true⟩
      (by decide) rfl rfl).2).trans (by decide),
   ((readData_generateData decimalFloat utcLocal paddedLog ⟨some paddedLog, none, true⟩
      (by decide) rfl rfl).2).trans (by decide)⟩

/-! ## The delimiter and the empty blocks -/

theorem splitAux_skip (sep : Str) (xs : Str) :
    ∀ (ys cur : Str), splitAux sep cur xs.length (xs ++ ys) = splitAux sep cur 0 ys := by
  induction xs with
  | nil => intro ys cur; rfl
  | cons x xs ih =>
    intro ys cur
    rw [List.length_cons, List.cons_append, splitAux, ih]

theorem splitAux_sep (sep : Str) (hsep : sep ≠ []) (cur rest : Str) :
    splitAux sep cur 0 (sep ++ rest) = cur :: splitAux sep [] 0 rest := by
  cases sep with
  | nil => exact absurd rfl hsep
  | cons c cs =>
    have hp : (c :: cs).isPrefixOf (c :: (cs ++ rest)) = true := by
      rw [List.isPrefixOf_iff_prefix]
      exact List.prefix_append (c :: cs) rest
    rw [List.cons_append, splitAux, if_pos hp]
    simp only [List.length_cons, Nat.add_sub_cancel]
    rw [splitAux_skip]

/-- The delimiter has no border: no proper, non-empty start of it is also an end
of it, so two occurrences of the delimiter never overlap. -/
theorem delimiter_no_border :
    ∀ k < delimiter.length, 0 < k → delimiter.take k ≠ delimiter.drop (delimiter.length - k) := by
  decide

theorem delimiter_prefix_of_short (A rest : Str) (hA : A ≠ [])
    (h : delimiter <+: A ++ (delimiter ++ rest)) : delimiter.length ≤ A.length := by
  by_contra hlt
  have hA1 : A <+: delimiter :=
    List.prefix_of_prefix_length_le (List.prefix_append A _) h (by omega)
  obtain ⟨e, he⟩ := hA1
  have hlen : delimiter.length = A.length + e.length := by rw [← he, List.length_append]
  have hApos : 0 < A.length := List.length_pos.2 hA
  have h2 : e <+: delimiter ++ rest := by
    have h1 : A ++ e <+: A ++ (delimiter ++ rest) := by rw [he]; exact h
    exact (List.prefix_append_right_inj A).1 h1
  have h3 : e <+: delimiter :=
    List.prefix_of_prefix_length_le h2 (List.prefix_append delimiter rest) (by omega)
  have h4 : delimiter.take e.length = e := (List.prefix_iff_eq_take.1 h3).symm
  have h5 : delimiter.drop (delimiter.length - e.length) = e := by
    have : delimiter.length - e.length = A.length := by omega
    rw [this, ← he, List.drop_left]
  exact delimiter_no_border e.length (by omega) (by omega) (by rw [h4, h5])

/-- The pieces of a text with an occurrence of the delimiter in it are the
pieces of what is before the occurrence followed by the pieces of what is
after it. -/
theorem splitAux_append_delimiter (n : Nat) :
    ∀ (A B cur : Str), A.length ≤ n →
      splitAux delimiter cur 0 (A ++ (delimiter ++ B)) =
        splitAux delimiter cur 0 A ++ splitAux delimiter [] 0 B := by
  induction n with
  | zero =>
    intro A B cur hA
    have : A = [] := List.length_eq_zero.1 (by omega)
    subst this
    rw [List.nil_append, splitAux_sep delimiter (by decide)]
    rfl
  | succ n ih =>
    intro A B cur hA
    cases A with
    | nil =>
      rw [List.nil_append, splitAux_sep delimiter (by decide)]
      rfl
    | cons a A1 =>
      by_cases hp : delimiter <+: (a :: A1) ++ (delimiter ++ B)
      · have hlen := delimiter_prefix_of_short (a :: A1) B (by simp) hp
        have hpA : delimiter <+: a :: A1 :=
          List.prefix_of_prefix_length_le hp (List.prefix_append _ _) hlen
        obtain ⟨A2, hA2⟩ := hpA
        have hlen2 : A2.length ≤ n := by
          have := congrArg List.length hA2
          simp only [List.length_append, List.length_cons] at this hA
          have hd : delimiter.length = 19 := by decide
          omega
        rw [← hA2, List.append_assoc, splitAux_sep delimiter (by decide),
          splitAux_sep delimiter (by decide), ih A2 B [] hlen2]
        rfl
      · have hpA : ¬ delimiter <+: a :: A1 := by
          intro h
          exact hp (h.trans (List.prefix_append _ _))
        have h1 : delimiter.isPrefixOf (a :: (A1 ++ (delimiter ++ B))) = false := by
          rw [Bool.eq_false_iff, ne_eq, List.isPrefixOf_iff_prefix]
          exact hp
        have h2 : delimiter.isPrefixOf (a :: A1) = false := by
          rw [Bool.eq_false_iff, ne_eq, List.isPrefixOf_iff_prefix]
          exact hpA
        rw [List.cons_append, splitAux, splitAux]
        simp only [h1, h2, Bool.false_eq_true, if_false]
        exact ih A1 B (cur ++ [a]) (by simp only [List.length_cons] at hA; omega)

theorem split_append_delimiter (A B : Str) :
    split (A ++ (delimiter ++ B)) delimiter = split A delimiter ++ split B delimiter :=
  splitAux_append_delimiter A.length A B [] (Nat.le_refl _)

theorem blockLoop_filter (env : LocalZone) (blocks : List Str) :
    ∀ lines : List (List Str),
      blockLoop env lines blocks = blockLoop env lines (blocks.filter (fun s => s ≠ [])) := by
  induction blocks with
  | nil => intro lines; rfl
  | cons b more ih =>
    intro lines
    by_cases hb : b = []
    · subst hb
      rw [blockLoop_empty, ih]
      simp
    · have hf : (b :: more).filter (fun s => s ≠ []) = b :: more.filter (fun s => s ≠ []) := by
        simp [hb]
      rw [hf]
      cases hp : parseHeader env (headerOf b) with
      | none =>
        rw [blockLoop_header_bad env lines b _ hb hp, blockLoop_header_bad env lines b _ hb hp]
      | some date =>
        rw [blockLoop_header_ok env lines b _ date hb hp,
          blockLoop_header_ok env lines b _ date hb hp, ih]

theorem split_nil (sep : Str) : split [] sep = [[]] := rfl

/-- C15: `generateData` skips empty blocks: an empty block is passed without a
row and without an error, so the loops give the same result on the blocks and
on the non-empty blocks alone; hence a delimiter added next to a delimiter of
the log, at the start of the log or at its end leaves the result of the parsing
(the rows, or the error) as it was, and with it what `generateData` returns and
writes. -/
theorem generateData_empty_blocks (env : LocalZone) :
    (∀ (lines : List (List Str)) (more : List Str),
      blockLoop env lines ([] :: more) = blockLoop env lines more) ∧
    (∀ (lines : List (List Str)) (blocks : List Str),
      blockLoop env lines blocks = blockLoop env lines (blocks.filter (fun s => s ≠ []))) ∧
    (∀ A B : Str,
      parseLog env (A ++ (delimiter ++ (delimiter ++ B))) = parseLog env (A ++ (delimiter ++ B))) ∧
    (∀ A : Str, parseLog env (delimiter ++ A) = parseLog env A) ∧
    (∀ A : Str, parseLog env (A ++ delimiter) = parseLog env A) ∧
    (∀ (raw1 raw2 : Str) (files : Files), parseLog env raw1 = parseLog env raw2 →
      (generateData env { files with psLog := some raw1 }).1 =
        (generateData env { files with psLog := some raw2 }).1 ∧
      (generateData env { files with psLog := some raw1 }).2.profile =
        (generateData env { files with psLog := some raw2 }).2.profile) := by
  refine ⟨blockLoop_empty env, fun lines blocks => blockLoop_filter env blocks lines,
    ?_, ?_, ?_, ?_⟩
  · intro A B
    unfold parseLog
    rw [split_append_delimiter A (delimiter ++ B), split_append_delimiter A B,
      ← List.nil_append (delimiter ++ B), split_append_delimiter [] B, split_nil,
      blockLoop_filter env (split A delimiter ++ ([[]] ++ split B delimiter)),
      blockLoop_filter env (split A delimiter ++ split B delimiter)]
    simp
  · intro A
    unfold parseLog
    rw [← List.nil_append (delimiter ++ A), split_append_delimiter [] A, split_nil]
    exact blockLoop_empty env _ _
  · intro A
    unfold parseLog
    have : A ++ delimiter = A ++ (delimiter ++ []) := by simp
    rw [this, split_append_delimiter A [], split_nil,
      blockLoop_filter env (split A delimiter ++ [[]]),
      blockLoop_filter env (split A delimiter)]
    simp
  · intro raw1 raw2 files h
    simp only [generateData, h]
    cases parseLog env raw2 with
    | error e => exact ⟨rfl, rfl⟩
    | ok lines => cases files.creatable <;> exact ⟨rfl, rfl⟩

/-! ## The time of a row -/

theorem parseHeader_eq_fields (env : LocalZone) (value : Str) :
    parseHeader env value =
      (headerFields value).bind fun f =>
        parseZone env f.year f.month f.day f.hour f.min f.sec f.nsec f.zone := by
  unfold parseHeader headerFields
  simp only [Option.bind_assoc, Option.some_bind]

theorem parseClock_range (v : Str) (r : Nat × Nat × Nat × Nat × Str)
    (h : parseClock v = some r) : r.1 < 24 ∧ r.2.1 < 60 ∧ r.2.2.1 < 60 := by
  unfold parseClock at h
  simp only [Option.bind_eq_some, Option.ite_none_left_eq_some] at h
  obtain ⟨a, -, h1, b, -, c, -, h2, d, -, e, -, h3, h6⟩ := h
  cases h6
  exact ⟨Nat.lt_of_not_le h1, Nat.lt_of_not_le h2, Nat.lt_of_not_le h3⟩

theorem headerFields_range (value : Str) (f : HeaderFields)
    (h : headerFields value = some f) : f.hour < 24 ∧ f.min < 60 ∧ f.sec < 60 := by
  unfold headerFields at h
  simp only [Option.bind_eq_some] at h
  obtain ⟨dv, -, v1, -, mv, -, v2, -, v3, -, yv, -, v4, -, c, h8, v5, -, hf⟩ := h
  cases hf
  exact parseClock_range _ _ h8

theorem formatTimeOfDay_of_sec (env : LocalZone) (t : Time) (days h m s : Nat)
    (hh : h < 24) (hm : m < 60) (hs : s < 60)
    (hsec : t.sec = (days : Int) * 86400 + ((h * 3600 + m * 60 + s : Nat) : Int))
    (hoff : t.offset env = 0) :
    formatTimeOfDay env t = pad2 h ++ [':'] ++ pad2 m ++ [':'] ++ pad2 s := by
  have hsod : t.secOfDay env = h * 3600 + m * 60 + s := by
    unfold Time.secOfDay
    rw [hoff, hsec]
    omega
  rw [formatTimeOfDay_eq, hsod]
  have e1 : (h * 3600 + m * 60 + s) / 3600 = h := by omega
  have e2 : (h * 3600 + m * 60 + s) % 3600 / 60 = m := by omega
  have e3 : (h * 3600 + m * 60 + s) % 60 = s := by omega
  rw [e1, e2, e3]

/-- The clock that the parsed header time shows is the clock of the header,
read as UTC, moved by the shift of its zone. -/
theorem sec_offset_parseZone (env : LocalZone) (f : HeaderFields) (t : Time)
    (hp : parseZone env f.year f.month f.day f.hour f.min f.sec f.nsec f.zone = some t) :
    t.sec + t.offset env = f.utcSec + zoneShift env f := by
  unfold parseZone at hp
  unfold zoneShift
  split at hp
  · rename_i hutc
    rw [if_pos hutc]
    split at hp
    · cases hp
    · split at hp
      · cases hp
      · cases hp
        simp only [Time.offset, HeaderFields.utcSec, dateUTC]
  · rename_i hutc
    rw [if_neg hutc]
    simp only [Option.bind_eq_some] at hp
    obtain ⟨n, -, hp⟩ := hp
    split at hp
    · cases hp
    · rename_i hdrop
      simp only [ne_eq, not_not] at hdrop
      have htake : f.zone.take n = f.zone :=
        List.take_of_length_le (List.drop_eq_nil_iff.1 hdrop)
      split at hp
      · cases hp
      · cases hp
        rw [htake]
        unfold withZoneName
        simp only [HeaderFields.utcSec]
        cases hl : env.lookupName f.zone
            (dateUTC f.year f.month f.day f.hour f.min f.sec f.nsec).sec with
        | none => simp only [Time.offset]
        | some offset =>
          simp only [Time.offset]
          omega

theorem utcSec_eq (f : HeaderFields) :
    f.utcSec = ((daysBefore f.year f.month + (f.day - 1) : Nat) : Int) * 86400 +
      ((f.hour * 3600 + f.min * 60 + f.sec : Nat) : Int) := rfl

theorem formatTimeOfDay_congr (env : LocalZone) (t t2 : Time)
    (h : t.secOfDay env = t2.secOfDay env) :
    formatTimeOfDay env t = formatTimeOfDay env t2 := by
  rw [formatTimeOfDay_eq, formatTimeOfDay_eq, h]

/-- Two headers with the same hour, minute and second and zones that shift the
clock alike are written as the same time. -/
theorem formatTimeOfDay_headerFields (env : LocalZone) (value value2 : Str)
    (f f2 : HeaderFields) (t t2 : Time)
    (hf : headerFields value = some f) (hf2 : headerFields value2 = some f2)
    (hp : parseHeader env value = some t) (hp2 : parseHeader env value2 = some t2)
    (e1 : f.hour = f2.hour) (e2 : f.min = f2.min) (e3 : f.sec = f2.sec)
    (hz : zoneShift env f % 86400 = zoneShift env f2 % 86400) :
    formatTimeOfDay env t = formatTimeOfDay env t2 := by
  rw [parseHeader_eq_fields, hf, Option.some_bind] at hp
  rw [parseHeader_eq_fields, hf2, Option.some_bind] at hp2
  have h1 := sec_offset_parseZone env f t hp
  have h2 := sec_offset_parseZone env f2 t2 hp2
  rw [utcSec_eq] at h1 h2
  apply formatTimeOfDay_congr
  unfold Time.secOfDay
  rw [h1, h2, e1, e2, e3]
  omega

theorem blockLoop_sameClock (env : LocalZone) (blocks blocks2 : List Str)
    (h : List.Forall₂ (SameClock env) blocks blocks2) :
    ∀ lines : List (List Str), blockLoop env lines blocks = blockLoop env lines blocks2 := by
  induction h with
  | nil => intro lines; rfl
  | @cons s s2 more more2 hs _ ih =>
    intro lines
    rcases hs with ⟨h1, h2⟩ | ⟨h1, h2, htail, f, f2, hf, hf2, hp, hp2, e1, e2, e3, hz⟩
    · subst h1 h2
      rw [blockLoop_empty, blockLoop_empty, ih]
    · obtain ⟨t, ht⟩ := Option.ne_none_iff_exists'.1 hp
      obtain ⟨t2, ht2⟩ := Option.ne_none_iff_exists'.1 hp2
      rw [blockLoop_header_ok env lines s more t h1 ht,
        blockLoop_header_ok env lines s2 more2 t2 h2 ht2,
        formatTimeOfDay_headerFields env _ _ f f2 t t2 hf hf2 ht ht2 e1 e2 e3 hz, htail, ih]

/-- C13, as amended: two logs whose blocks differ at most in the day, month,
year and zone of their header lines, the zones of matching headers shifting the
clock alike, give the same result of the parsing, so the same rows.  The shift
is nothing for `UTC`, for an abbreviation that the local zone data knows with
the offset in force at that time, and for an abbreviation that it does not know
unless this is `GMT` with an hour offset; so for such headers the time of a
row is the hour, minute and second written in the header, whatever the day. -/
theorem parseLog_sameClock (env : LocalZone) (raw raw2 : Str)
    (h : List.Forall₂ (SameClock env) (split raw delimiter) (split raw2 delimiter)) :
    parseLog env raw = parseLog env raw2 ∧
    (∀ f : HeaderFields, f.zone.take 3 = "UTC".toList → zoneShift env f = 0) ∧
    (∀ (f : HeaderFields) (offset : Int), f.zone.take 3 ≠ "UTC".toList →
      env.lookupName f.zone f.utcSec = some offset →
      env.lookup (f.utcSec - offset) = offset → zoneShift env f = 0) ∧
    (∀ f : HeaderFields, f.zone.take 3 ≠ "UTC".toList →
      env.lookupName f.zone f.utcSec = none →
      ¬ (f.zone.length > 3 ∧ f.zone.take 3 = "GMT".toList) → zoneShift env f = 0) := by
  refine ⟨blockLoop_sameClock env _ _ h [profileHeader], ?_, ?_, ?_⟩
  · intro f hf
    simp only [zoneShift, hf, if_true]
  · intro f offset hf hl hin
    simp only [zoneShift, hf, if_false, hl, hin]
    omega
  · intro f hf hl hg
    have hg2 : (decide (f.zone.length > 3) && decide (f.zone.take 3 = "GMT".toList)) = false := by
      simpa using hg
    simp only [zoneShift, hf, if_false, hl, hg2, Bool.false_eq_true]

/-- Witness of C13: the same sample on a day of January in `CET` and on a day of
July in `CEST`, on a machine whose zone data knows both, each in force on its
day; the row time is `10:00:00` in both. -/
theorem parseLog_sameClock_witness :
    parseLog parisZone cetHeaderLog = parseLog parisZone cestHeaderLog ∧
    logRows parisZone cetHeaderLog =
      [["10:00:00".toList, "5.0".toList, "2.0".toList, "myproc".toList]] :=
  ⟨(parseLog_sameClock parisZone cetHeaderLog cestHeaderLog (by
    have h1 : split cetHeaderLog delimiter = [cetHeaderLog] := by decide
    have h2 : split cestHeaderLog delimiter = [cestHeaderLog] := by decide
    rw [h1, h2]
    refine List.Forall₂.cons (Or.inr ⟨by decide, by decide, by decide,
      ⟨2024, 1, 15, 10, 0, 0, 0, "CET".toList⟩, ⟨2023, 7, 15, 10, 0, 0, 0, "CEST".toList⟩,
      by decide, by decide, by decide, by decide, rfl, rfl, rfl, by decide⟩)
      List.Forall₂.nil)).1, by decide⟩

/-- Counterexample to C13 as stated: `utcHeaderLog` and `gmtHeaderLog` differ
only in the zone of their header line, which parses in both, and their rows
differ: the time is `10:00:00` in one and `13:00:00` in the other. -/
theorem parseLog_gmtHeaderLog :
    headerFields (headerOf utcHeaderLog) = some ⟨2024, 1, 1, 10, 0, 0, 0, "UTC".toList⟩ ∧
    headerFields (headerOf gmtHeaderLog) = some ⟨2024, 1, 1, 10, 0, 0, 0, "GMT+3".toList⟩ ∧
    parseLog utcLocal utcHeaderLog = Except.ok [profileHeader,
      ["10:00:00".toList, "5.0".toList, "2.0".toList, "myproc".toList]] ∧
    parseLog utcLocal gmtHeaderLog = Except.ok [profileHeader,
      ["13:00:00".toList, "5.0".toList, "2.0".toList, "myproc".toList]] := by
  refine ⟨by decide, by decide, ?_, ?_⟩
  · have h1 : split utcHeaderLog delimiter = [utcHeaderLog] := by decide
    rw [parseLog, h1, blockLoop_header_ok utcLocal _ _ _ ⟨63871322400, 0, Loc.utc⟩
      (by decide) (by decide), blockLoop_nil]
    exact congrArg Except.ok (by decide)
  · have h1 : split gmtHeaderLog delimiter = [gmtHeaderLog] := by decide
    rw [parseLog, h1, blockLoop_header_ok utcLocal _ _ _
      ⟨63871322400, 0, Loc.fixed "GMT+3".toList 10800⟩ (by decide) (by decide), blockLoop_nil]
    exact congrArg Except.ok (by decide)

end Profiling
